import Mathlib

/-!
Verification development for the red-phone-agent sales-support pipeline.

The JavaScript sources are embedded shallowly:

* JS numbers that occur in the modelled code paths are rationals (`ℚ`);
  `parseFloat(x) || 0` on an optionally-present numeric field becomes
  `parseFloatOr0 : Option ℚ → ℚ`.
* JS strings are `String`; `String.prototype.includes` becomes `strIncludes`
  (substring containment on the character list) and `toLowerCase` becomes
  `jsToLower` (ASCII lowering, as in the source data).
* JS object tables are association lists looked up with `jsGet`
  (first binding wins, as property lookup on the literal objects).
* Code that can throw is modelled with `Except`.

Presentational prose (human-readable `message` / `impact` / `benefit` strings
that interpolate floating-point numbers, and the `factors` / rationale string
lists) is not modelled; items are identified by their `type`, `severity` and
`priority` fields, which is what all stated properties refer to.
-/

/-! ## Generic JS-style helpers -/

/-- Association-list lookup, mirroring property access `obj[key]` on the
object literals of the source (first binding wins). -/
def jsGet {α : Type} (k : String) : List (String × α) → Option α
  | [] => none
  | (k₀, v) :: t => if k = k₀ then some v else jsGet k t

theorem jsGet_mem {α : Type} {k : String} {l : List (String × α)} {v : α}
    (h : jsGet k l = some v) : (k, v) ∈ l := by
  induction l with
  | nil => simp [jsGet] at h
  | cons p t ih =>
    obtain ⟨k₀, v₀⟩ := p
    by_cases hk : k = k₀
    · simp [jsGet, hk] at h
      simp [hk, h]
    · simp [jsGet, hk] at h
      exact List.mem_cons_of_mem _ (ih h)

theorem jsGet_all {α : Type} {k : String} {l : List (String × α)} {v : α}
    {p : String × α → Bool} (hall : l.all p = true) (h : jsGet k l = some v) :
    p (k, v) = true := by
  have := jsGet_mem h
  exact List.all_eq_true.mp hall _ this

/-- ASCII lowercasing, as `String.prototype.toLowerCase` acts on the ASCII
data appearing in this repository. -/
def jsToLower (s : String) : String := String.mk (s.toList.map Char.toLower)

/-- Substring containment on character lists: `hayChars` contains
`needleChars` as a contiguous run (`String.prototype.includes`).
An empty needle is contained in every string, as in JS. -/
def charsInclude (needle : List Char) : List Char → Bool
  | [] => needle.isEmpty
  | c :: t => needle.isPrefixOf (c :: t) || charsInclude needle t

/-- `hay.includes(needle)` on strings. -/
def strIncludes (hay needle : String) : Bool :=
  charsInclude needle.toList hay.toList

/-- `parseFloat(x) || 0` for an optionally-present numeric field
(absent field → `NaN` → `0`). -/
def parseFloatOr0 : Option ℚ → ℚ
  | none => 0
  | some q => q

/-- JS truthiness of an optionally-present numeric field
(`undefined` and `0` are falsy). -/
def numTruthy : Option ℚ → Bool
  | none => false
  | some q => decide (q ≠ 0)

/-! ## Policy Knowledge Store (`rulesOfEngagement.js`) -/

/-- One row of `rulesOfEngagement.discountPolicies.standard.<dealType>`:
`{ max, typical, autoApproved }`. -/
structure DiscountEntry where
  max : ℚ
  typical : ℚ
  autoApproved : ℚ
  deriving DecidableEq, Repr

/-- `rulesOfEngagement.discountPolicies.standard`. -/
def standardDiscountPolicies : List (String × List (String × DiscountEntry)) :=
  [ ("newBusiness",
      [ ("enterprise", ⟨20, 15, 10⟩)
      , ("midmarket", ⟨15, 10, 7⟩)
      , ("smb", ⟨10, 5, 5⟩)
      , ("largeEnterprise", ⟨25, 20, 15⟩)
      , ("globalAccounts", ⟨30, 25, 20⟩) ])
  , ("renewal",
      [ ("enterprise", ⟨15, 10, 8⟩)
      , ("midmarket", ⟨12, 8, 5⟩)
      , ("smb", ⟨8, 3, 3⟩)
      , ("largeEnterprise", ⟨20, 15, 12⟩)
      , ("globalAccounts", ⟨25, 20, 15⟩) ])
  , ("addon",
      [ ("all", ⟨5, 0, 5⟩) ]) ]

/-- `rulesOfEngagement.discountPolicies.regional.<region>.additionalDiscount`. -/
def regionalDiscountPolicies : List (String × ℚ) :=
  [ ("namer", 0), ("latam", 5), ("emea", 3), ("apac", 7) ]

/-- The value of `discountPolicies.regional[region]?.additionalDiscount || 0`
(an absent region, and `namer`'s stored `0`, both give `0`). -/
def regionalAdjustmentOf (region : String) : ℚ :=
  (jsGet region regionalDiscountPolicies).getD 0

/-- The record returned by `getDiscountPolicy`:
`{ ...standardDiscount, regionalAdjustment, effectiveMax }`. -/
structure DiscountPolicyResult where
  max : ℚ
  typical : ℚ
  autoApproved : ℚ
  regionalAdjustment : ℚ
  effectiveMax : ℚ
  deriving DecidableEq, Repr

/-- `getDiscountPolicy(dealType, segment, region = 'namer')`. -/
def getDiscountPolicy (dealType segment : String) (region : String := "namer") :
    Option DiscountPolicyResult :=
  match jsGet dealType standardDiscountPolicies with
  | none => none
  | some row =>
    match jsGet segment row with
    | none => none
    | some e =>
      let adj := regionalAdjustmentOf region
      some ⟨e.max, e.typical, e.autoApproved, adj, e.max + adj⟩

/-- An `{ approver, timeframe }` entry of the approval workflow tables. -/
structure ApprovalEntry where
  approver : String
  timeframe : String
  deriving DecidableEq, Repr

/-- The `highestLevel` field of `getApprovalRequirement`'s result: either the
single shared entry or the pair of (possibly absent) entries. -/
inductive HighestLevel where
  | single (e : Option ApprovalEntry)
  | pair (discount size : Option ApprovalEntry)
  deriving DecidableEq, Repr

/-- Result record of `getApprovalRequirement`. -/
structure ApprovalRequirement where
  discountApproval : Option ApprovalEntry
  sizeApproval : Option ApprovalEntry
  highestLevel : HighestLevel
  deriving DecidableEq, Repr

/-- The `find` over `approvalWorkflow.discountApproval`'s entries, with each
range key's `parseInt` results evaluated: `"0-10%" ↦ 0 ≤ p ≤ 10`,
`"11-20%" ↦ 11 ≤ p ≤ 20`, `"21-30%" ↦ 21 ≤ p ≤ 30`, `"31%+" ↦ 31 ≤ p`
(entry order as in the source object). -/
def discountApprovalFind (p : ℚ) : Option ApprovalEntry :=
  if 0 ≤ p ∧ p ≤ 10 then some ⟨"Auto-approved", "Immediate"⟩
  else if 11 ≤ p ∧ p ≤ 20 then some ⟨"Sales Manager", "24 hours"⟩
  else if 21 ≤ p ∧ p ≤ 30 then some ⟨"Regional Director", "48 hours"⟩
  else if 31 ≤ p then some ⟨"VP Sales + Finance", "72 hours"⟩
  else none

/-- The `find` over `approvalWorkflow.dealSizeApproval`'s entries, with the
range-string parsing evaluated: `"under50k" ↦ v < 50000`,
`"50k-250k" ↦ 50000 ≤ v ≤ 250000`, `"250k-500k" ↦ 250000 ≤ v ≤ 500000`,
`"500k+" ↦ 500000 ≤ v`. -/
def dealSizeApprovalFind (v : ℚ) : Option ApprovalEntry :=
  if v < 50000 then some ⟨"Sales Manager", "24 hours"⟩
  else if 50000 ≤ v ∧ v ≤ 250000 then some ⟨"Regional Director", "48 hours"⟩
  else if 250000 ≤ v ∧ v ≤ 500000 then some ⟨"VP Sales", "72 hours"⟩
  else if 500000 ≤ v then some ⟨"VP Sales + CEO", "1 week"⟩
  else none

/-- `getApprovalRequirement(discountPercent, dealSize)`. -/
def getApprovalRequirement (discountPercent dealSize : ℚ) : ApprovalRequirement :=
  let d := discountApprovalFind discountPercent
  let s := dealSizeApprovalFind dealSize
  { discountApproval := d
  , sizeApproval := s
  , highestLevel :=
      if d.map ApprovalEntry.approver = s.map ApprovalEntry.approver
      then .single d else .pair d s }

/-! ## Scenario catalog (`realScenarios.js`) -/

/-- A catalog scenario. The prose fields (`userPrompt`, `agentResponse`,
`followUpActions`, `caseInfo`) play no role in matching and are omitted. -/
structure Scenario where
  id : String
  category : String
  keywords : List String
  requiresCase : Bool
  deriving DecidableEq, Repr

/-- `customerScenarios`, in catalog order. -/
def customerScenarios : List Scenario :=
  [ ⟨"compensation-missing", "Compensation",
      ["compensation", "missing", "commission", "bookings", "opportunity"], false⟩
  , ⟨"find-invoice", "Billing",
      ["invoice", "customer", "billing", "download", "dynamics"], false⟩
  , ⟨"tearup-ep", "Deal Structure",
      ["tear up", "tearup", "ep", "eligibility", "roe"], true⟩
  , ⟨"hep-pricing", "Pricing",
      ["hep", "pricing", "solution builder", "quote", "spend"], true⟩
  , ⟨"legal-terms", "Legal",
      ["legal", "terms", "contract", "non-standard", "order form"], true⟩
  , ⟨"opportunity-stage", "System Issues",
      ["stage", "opportunity", "error", "closed admin", "disengaged"], true⟩ ]

/-- Number of a scenario's keywords occurring in the (already lowercased)
input: `scenario.keywords.filter(kw => input.includes(kw.toLowerCase())).length`. -/
def keywordScore (input : String) (sc : Scenario) : ℕ :=
  (sc.keywords.filter (fun kw => strIncludes input (jsToLower kw))).length

/-- `findMatchingScenario(userInput)`: filter the catalog to scenarios with at
least one keyword occurring in the lowercased input; with more than one match,
`reduce` keeps the current scenario only when its score strictly exceeds the
best so far. -/
def findMatchingScenario (userInput : String) : Option Scenario :=
  let input := jsToLower userInput
  let found := customerScenarios.filter
    (fun sc => sc.keywords.any (fun kw => strIncludes input (jsToLower kw)))
  match found with
  | [] => none
  | [x] => some x
  | x :: xs =>
    some (xs.foldl
      (fun best current =>
        if keywordScore input best < keywordScore input current then current else best)
      x)

/-- Restatement of the Scenario Matcher contract in the spec's words: a
scenario qualifies when its keyword count is at least 1; among qualifying
scenarios the one with the highest count wins, ties broken by catalog order
(the first listed). -/
def claimScenarioMatch (userInput : String) : Option Scenario :=
  let input := jsToLower userInput
  let qualifying := customerScenarios.filter (fun sc => 1 ≤ keywordScore input sc)
  let best := (qualifying.map (keywordScore input)).foldr max 0
  qualifying.find? (fun sc => keywordScore input sc == best)

/-! ## Entity extraction (`messageProcessor.js`, percentage and currency) -/

/-- A JS value produced by an entity extractor: a finite number, `NaN`, or a
string (the extractors under study never produce the string case, which is
the point of claim C7). -/
inductive JsValue where
  | num (q : ℚ)
  | nan
  | str (s : String)
  deriving DecidableEq, Repr

/-- Decimal value of a digit list (most significant first). -/
def digitsVal (l : List Char) : ℕ :=
  l.foldl (fun acc c => 10 * acc + (c.toNat - '0'.toNat)) 0

/-- `parseFloat` restricted to the token shapes the two extractors feed it:
leading digits, an optional `'.'` followed by digits, and an arbitrary tail
at which parsing stops. `none` models `NaN` (no leading digits and no
fractional digits). Signs, exponents and leading whitespace never occur in
those tokens and are not modelled. -/
def jsParseFloat (l : List Char) : Option ℚ :=
  let ds := l.takeWhile Char.isDigit
  let r := l.dropWhile Char.isDigit
  match r with
  | '.' :: r₂ =>
    let fs := r₂.takeWhile Char.isDigit
    if ds.isEmpty && fs.isEmpty then none
    else some ((digitsVal ds : ℚ) + (digitsVal fs : ℚ) / (10 : ℚ) ^ fs.length)
  | _ => if ds.isEmpty then none else some (digitsVal ds)

/-- The fractional part of `/(\d+(?:\.\d+)?)%/` after a `'.'` has been seen:
a nonempty greedy digit run followed by the required `'%'`. -/
def pctFrac (ds r₂ : List Char) : Option (List Char × List Char) :=
  match r₂.takeWhile Char.isDigit with
  | [] => none
  | f :: fs =>
    match r₂.dropWhile Char.isDigit with
    | '%' :: r₄ => some (ds ++ '.' :: (f :: fs) ++ ['%'], r₄)
    | _ => none

/-- After the greedy integer digit run `ds`, the regex needs either
`'.'`-digits-`'%'` or `'%'` directly.  (The engine's backtracking never helps
here: any shorter digit run is followed by a digit, which is neither `'.'`
nor `'%'`.) -/
def pctAfterDigits (ds r₁ : List Char) : Option (List Char × List Char) :=
  match r₁ with
  | '.' :: r₂ => pctFrac ds r₂
  | '%' :: r₄ => some (ds ++ ['%'], r₄)
  | _ => none

/-- One attempt of `/(\d+(?:\.\d+)?)%/` at the start of `s`; returns the
matched token and the remainder after it. -/
def pctMatchAt (s : List Char) : Option (List Char × List Char) :=
  match s with
  | [] => none
  | c :: _ =>
    if c.isDigit then
      pctAfterDigits (s.takeWhile Char.isDigit) (s.dropWhile Char.isDigit)
    else none

theorem length_dropWhile_le (p : Char → Bool) (l : List Char) :
    (l.dropWhile p).length ≤ l.length := by
  induction l with
  | nil => simp [List.dropWhile]
  | cons c t ih =>
    by_cases h : p c <;> simp [List.dropWhile, h] <;> omega

theorem pctFrac_shrinks {ds r₂ tok rest : List Char}
    (h : pctFrac ds r₂ = some (tok, rest)) : rest.length < r₂.length := by
  unfold pctFrac at h
  split at h
  · exact absurd h (by simp)
  · split at h
    · next heq =>
      have hle := length_dropWhile_le Char.isDigit r₂
      rw [heq] at hle
      simp only [Option.some.injEq, Prod.mk.injEq] at h
      obtain ⟨-, h2⟩ := h
      subst h2
      simp only [List.length_cons] at hle
      omega
    · exact absurd h (by simp)

theorem pctAfterDigits_shrinks {ds r₁ tok rest : List Char}
    (h : pctAfterDigits ds r₁ = some (tok, rest)) : rest.length < r₁.length := by
  unfold pctAfterDigits at h
  split at h
  · have := pctFrac_shrinks h
    simp only [List.length_cons]
    omega
  · simp only [Option.some.injEq, Prod.mk.injEq] at h
    obtain ⟨-, h2⟩ := h
    subst h2
    simp only [List.length_cons]
    omega
  · exact absurd h (by simp)

theorem pctMatchAt_shrinks {s tok rest : List Char}
    (h : pctMatchAt s = some (tok, rest)) : rest.length < s.length := by
  match s with
  | [] => simp [pctMatchAt] at h
  | c :: t =>
    simp only [pctMatchAt] at h
    by_cases hc : c.isDigit
    · rw [if_pos hc] at h
      have h1 := pctAfterDigits_shrinks h
      have h2 := length_dropWhile_le Char.isDigit (c :: t)
      omega
    · rw [if_neg hc] at h
      exact absurd h (by simp)

/-- The global scan of `/(\d+(?:\.\d+)?)%/g`: leftmost match, then continue
after it. -/
def pctScan (s : List Char) : List (List Char) :=
  match s with
  | [] => []
  | c :: t =>
    match h : pctMatchAt (c :: t) with
    | some (tok, rest) => tok :: pctScan rest
    | none => pctScan t
termination_by s.length
decreasing_by
  · exact pctMatchAt_shrinks h
  · simp

/-- `m.replace('%', '')`: drop the first `'%'`. -/
def dropFirstPct : List Char → List Char
  | [] => []
  | c :: t => if c = '%' then t else c :: dropFirstPct t

/-- Value of one percentage token: `parseFloat(m.replace('%',''))`. -/
def pctValue (tok : List Char) : JsValue :=
  match jsParseFloat (dropFirstPct tok) with
  | some q => .num q
  | none => .nan

/-- The percentage extractor applied to a message:
`matches.map(m => parseFloat(m.replace('%','')))` over the global matches. -/
def extractPercentage (message : String) : List JsValue :=
  (pctScan message.toList).map pctValue

/-- `[\d,]` — a digit or a comma. -/
def isDigitOrComma (c : Char) : Bool := c.isDigit || c = ','

/-- `[kKmM]`. -/
def isKmSuffix (c : Char) : Bool := c = 'k' || c = 'K' || c = 'm' || c = 'M'

/-- The optional `\$?` at the start of a currency attempt: the consumed
dollar sign (if any) and the remainder. -/
def curDollarSplit (s : List Char) : List Char × List Char :=
  match s with
  | '$' :: t => (['$'], t)
  | _ => ([], s)

/-- The optional `(?:\.\d{2})?` group: a `'.'` followed by exactly two
digits, or nothing. -/
def curFracSplit (r₁ : List Char) : List Char × List Char :=
  match r₁ with
  | '.' :: a :: b :: rest =>
    if a.isDigit && b.isDigit then (['.', a, b], rest)
    else ([], '.' :: a :: b :: rest)
  | r => ([], r)

/-- The optional `[kKmM]?` magnitude suffix. -/
def curSuffixSplit (r₂ : List Char) : List Char × List Char :=
  match r₂ with
  | c :: rest => if isKmSuffix c then ([c], rest) else ([], c :: rest)
  | [] => ([], [])

/-- One attempt of `/\$?([\d,]+(?:\.\d{2})?)[kKmM]?/` at the start of `s`:
optional `'$'`, a nonempty greedy `[\d,]` run, an optional `'.'` plus exactly
two digits, and an optional magnitude suffix.  (If `'$'` is present but no
`[\d,]` follows, the attempt fails: retrying with `\$?` matching empty hits
the `'$'` itself.) -/
def curMatchAt (s : List Char) : Option (List Char × List Char) :=
  let dollar := curDollarSplit s
  let ds := dollar.2.takeWhile isDigitOrComma
  let r₁ := dollar.2.dropWhile isDigitOrComma
  if ds.isEmpty then none
  else
    let fr := curFracSplit r₁
    let su := curSuffixSplit fr.2
    some (dollar.1 ++ ds ++ fr.1 ++ su.1, su.2)

theorem curFracSplit_le (r₁ : List Char) :
    (curFracSplit r₁).2.length ≤ r₁.length := by
  unfold curFracSplit
  split
  · split
    · simp only [List.length_cons]
      omega
    · simp
  · simp

theorem curSuffixSplit_le (r₂ : List Char) :
    (curSuffixSplit r₂).2.length ≤ r₂.length := by
  unfold curSuffixSplit
  split
  · split
    · simp only [List.length_cons]
      omega
    · simp
  · simp

theorem curDollarSplit_le (s : List Char) :
    (curDollarSplit s).2.length ≤ s.length := by
  unfold curDollarSplit
  split
  · simp only [List.length_cons]
    omega
  · simp

theorem dropWhile_lt_of_takeWhile_ne_nil {p : Char → Bool} {l : List Char}
    (h : l.takeWhile p ≠ []) : (l.dropWhile p).length < l.length := by
  have happ := @List.takeWhile_append_dropWhile _ p l
  have hlen := congrArg List.length happ
  rw [List.length_append] at hlen
  have : 0 < (l.takeWhile p).length := List.length_pos.mpr h
  omega

theorem curMatchAt_shrinks {s tok rest : List Char}
    (h : curMatchAt s = some (tok, rest)) : rest.length < s.length := by
  unfold curMatchAt at h
  by_cases hds : ((curDollarSplit s).2.takeWhile isDigitOrComma).isEmpty
  · rw [if_pos hds] at h
    exact absurd h (by simp)
  · rw [if_neg hds] at h
    simp only [Option.some.injEq, Prod.mk.injEq] at h
    obtain ⟨-, h2⟩ := h
    subst h2
    have hne : (curDollarSplit s).2.takeWhile isDigitOrComma ≠ [] := by
      simpa [List.isEmpty_iff] using hds
    have h1 := dropWhile_lt_of_takeWhile_ne_nil hne
    have h2 := curFracSplit_le ((curDollarSplit s).2.dropWhile isDigitOrComma)
    have h3 := curSuffixSplit_le
      (curFracSplit ((curDollarSplit s).2.dropWhile isDigitOrComma)).2
    have h4 := curDollarSplit_le s
    omega

/-- The global scan of `/\$?([\d,]+(?:\.\d{2})?)[kKmM]?/g`. -/
def curScan (s : List Char) : List (List Char) :=
  match s with
  | [] => []
  | c :: t =>
    match h : curMatchAt (c :: t) with
    | some (tok, rest) => tok :: curScan rest
    | none => curScan t
termination_by s.length
decreasing_by
  · exact curMatchAt_shrinks h
  · simp

/-- Value of one currency token: strip `'$'` and `','`, `parseFloat`, then
scale by 1000 for a `k`/`K` in the token, by 1000000 for an `m`/`M`
(`k` checked first, as in the source). -/
def curValue (tok : List Char) : JsValue :=
  let clean := tok.filter (fun c => !(c = '$' || c = ','))
  match jsParseFloat clean with
  | none => .nan
  | some q =>
    if tok.any (fun c => c.toLower = 'k') then .num (q * 1000)
    else if tok.any (fun c => c.toLower = 'm') then .num (q * 1000000)
    else .num q

/-- The currency extractor applied to a message. -/
def extractCurrency (message : String) : List JsValue :=
  (curScan message.toList).map curValue

/-- The `entities` object built by `extractAllEntities`, restricted to the
numeric extractors the stated properties are about; a key is absent
(`none`) exactly when `message.match(pattern)` returned `null`
(no matches).  The remaining extractors (timeframe, segment, dealType,
region, urgency) take no part in any stated property. -/
structure ExtractedEntities where
  percentage : Option (List JsValue)
  currency : Option (List JsValue)
  deriving DecidableEq, Repr

/-- `extractAllEntities(message)` (percentage and currency components). -/
def extractAllEntities (message : String) : ExtractedEntities :=
  { percentage :=
      match pctScan message.toList with
      | [] => none
      | toks => some (toks.map pctValue)
  , currency :=
      match curScan message.toList with
      | [] => none
      | toks => some (toks.map curValue) }

/-! ## Compliance Checker (`policyChecker.js`) -/

/-- The case record assembled by the UI and fed to the checker/router.
`dealValue` is the number `parseFloat(caseData.dealValue) || 0` evaluates to
(an absent field gives `0`); `discountRequested` keeps its optional JS
presence because the checker tests its truthiness before parsing. -/
structure CaseDraft where
  title : String
  category : String
  priority : String
  description : String
  businessJustification : String
  dealValue : ℚ
  discountRequested : Option ℚ
  timeframe : String
  competitorInfo : String
  customerInfo : String
  deriving DecidableEq, Repr

/-- A violation or warning: its `type` and `severity` tags. -/
structure Item where
  itype : String
  severity : String
  deriving DecidableEq, Repr

/-- A recommendation: its `type` and `priority` tags. -/
structure Advice where
  rtype : String
  priority : String
  deriving DecidableEq, Repr

namespace PolicyChecker

/-- `complianceRules.minimumRequirements.seats`. -/
def minimumSeatRequirements : List (String × ℕ) :=
  [ ("smb", 5), ("midmarket", 25), ("enterprise", 100)
  , ("largeEnterprise", 500), ("globalAccounts", 1000) ]

/-- `complianceRules.minimumRequirements.value`. -/
def minimumValueRequirements : List (String × ℚ) :=
  [ ("smb", 5000), ("midmarket", 15000), ("enterprise", 50000)
  , ("largeEnterprise", 250000), ("globalAccounts", 500000) ]

/-- `PolicyChecker.inferSegment`: direct mentions in the lowercased
description/customerInfo first, then deal-value thresholds. -/
def inferSegment (c : CaseDraft) : String :=
  let description := jsToLower c.description
  let customerInfo := jsToLower c.customerInfo
  if strIncludes description "smb" || strIncludes customerInfo "smb" then "smb"
  else if strIncludes description "midmarket" || strIncludes customerInfo "midmarket" then
    "midmarket"
  else if strIncludes description "enterprise" || strIncludes customerInfo "enterprise" then
    "enterprise"
  else if strIncludes description "global" || strIncludes customerInfo "global" then
    "globalAccounts"
  else if 500000 ≤ c.dealValue then "globalAccounts"
  else if 250000 ≤ c.dealValue then "largeEnterprise"
  else if 50000 ≤ c.dealValue then "enterprise"
  else if 15000 ≤ c.dealValue then "midmarket"
  else "smb"

/-- `PolicyChecker.inferDealType`. -/
def inferDealType (c : CaseDraft) : String :=
  let description := jsToLower c.description
  let title := jsToLower c.title
  if strIncludes description "renewal" || strIncludes title "renewal" then "renewal"
  else if strIncludes description "add-on" || strIncludes description "addon"
      || strIncludes title "add-on" then "addon"
  else if strIncludes description "upsell" || strIncludes title "upsell" then "upsell"
  else "newBusiness"

/-- Result of one compliance check. -/
structure CheckResult where
  ctype : String
  compliant : Bool
  score : ℚ
  violations : List Item
  warnings : List Item
  recommendations : List Advice
  deriving DecidableEq, Repr

/-- The `result` object each check starts from: compliant, score 100,
empty lists. -/
def neutralResult (t : String) : CheckResult := ⟨t, true, 100, [], [], []⟩

/-- `PolicyChecker.discountCompliance`.  Not applicable (falsy
`discountRequested` or non-pricing category) returns the untouched neutral
result. -/
def discountCompliance (c : CaseDraft) : CheckResult :=
  if numTruthy c.discountRequested = false ∨ c.category ≠ "pricing" then
    neutralResult "discount_compliance"
  else
    let discountPercent := parseFloatOr0 c.discountRequested
    let segment := inferSegment c
    let dealType := inferDealType c
    match getDiscountPolicy dealType segment with
    | none =>
      { neutralResult "discount_compliance" with
        warnings := [⟨"policy_lookup", "medium"⟩] }
    | some policy =>
      let base := neutralResult "discount_compliance"
      let r₁ :=
        if policy.max < discountPercent then
          { base with
            compliant := false
            score := 20
            violations := [⟨"discount_limit_exceeded", "high"⟩] }
        else if policy.autoApproved < discountPercent then
          { base with score := 70, warnings := [⟨"approval_required", "medium"⟩] }
        else base
      if 0 < policy.regionalAdjustment then
        { r₁ with recommendations := r₁.recommendations ++ [⟨"regional_adjustment", "info"⟩] }
      else r₁

/-- First match of `/(\d+)\s*seats?/` in a character list, returning the
captured digit group's `parseInt` value.  On failure at a position the scan
advances one character, as the regex engine does. -/
def seatMatch (s : List Char) : Option ℕ :=
  match s with
  | [] => none
  | c :: t =>
    if c.isDigit then
      let ds := s.takeWhile Char.isDigit
      let r₁ := s.dropWhile Char.isDigit
      let r₂ := r₁.dropWhile Char.isWhitespace
      if "seat".toList.isPrefixOf r₂ then some (digitsVal ds)
      else seatMatch t
    else seatMatch t

/-- `PolicyChecker.minimumRequirements`. -/
def minimumRequirements (c : CaseDraft) : CheckResult :=
  let segment := inferSegment c
  let dealValue := c.dealValue
  let dealType := inferDealType c
  if dealType = "addon" then
    { neutralResult "minimum_requirements" with
      recommendations := [⟨"addon_exemption", "info"⟩] }
  else
    let base := neutralResult "minimum_requirements"
    let r₁ :=
      match jsGet segment minimumValueRequirements with
      | some minValue =>
        if minValue ≠ 0 ∧ 0 < dealValue ∧ dealValue < minValue then
          { base with
            compliant := false
            score := 30
            violations := [⟨"minimum_value", "high"⟩] }
        else base
      | none => base
    match seatMatch (jsToLower c.description).toList with
    | some requestedSeats =>
      match jsGet segment minimumSeatRequirements with
      | some minSeats =>
        if minSeats ≠ 0 ∧ requestedSeats < minSeats then
          { r₁ with
            compliant := false
            score := min r₁.score 30
            violations := r₁.violations ++ [⟨"minimum_seats", "high"⟩] }
        else r₁
      | none => r₁
    | none => r₁

/-- `PolicyChecker.approvalWorkflow`: only recommendations depend on the
discount/size lookup; the single possible warning depends on the deal value
alone, and the score is never touched. -/
def approvalWorkflow (c : CaseDraft) : CheckResult :=
  let discountPercent := parseFloatOr0 c.discountRequested
  let dealValue := c.dealValue
  let recs : List Advice :=
    if 0 < discountPercent ∧ 0 < dealValue then
      let approvalReq := getApprovalRequirement discountPercent dealValue
      let recs₁ : List Advice :=
        match approvalReq.discountApproval with
        | some _ => [⟨"approval_path", "high"⟩]
        | none => []
      let recs₂ : List Advice :=
        match approvalReq.sizeApproval with
        | some sa =>
          if approvalReq.discountApproval.map ApprovalEntry.approver ≠ some sa.approver
          then [⟨"dual_approval", "high"⟩] else []
        | none => []
      recs₁ ++ recs₂
    else []
  let warns : List Item :=
    if 500000 < dealValue then [⟨"high_value_deal", "medium"⟩] else []
  { ctype := "approval_workflow"
    compliant := true
    score := 100
    violations := []
    warnings := warns
    recommendations := recs }

/-- `PolicyChecker.dealStructure`. -/
def dealStructure (c : CaseDraft) : CheckResult :=
  let d := jsToLower c.description
  let base := neutralResult "deal_structure"
  let r₁ :=
    if strIncludes d "payment terms" || strIncludes d "net 60" || strIncludes d "net 90" then
      { base with warnings := [⟨"payment_terms", "medium"⟩], score := 80 }
    else base
  let r₂ :=
    if strIncludes d "multi-year" || strIncludes d "3 year" || strIncludes d "multiple years" then
      { r₁ with recommendations := r₁.recommendations ++ [⟨"multi_year_terms", "medium"⟩] }
    else r₁
  if strIncludes d "equity" || strIncludes d "stock" || strIncludes d "barter" then
    { r₂ with
      violations := r₂.violations ++ [⟨"non_cash_payment", "high"⟩]
      compliant := false
      score := 10 }
  else r₂

/-- `PolicyChecker.competitivePolicy`: recommendations only. -/
def competitivePolicy (c : CaseDraft) : CheckResult :=
  let d := jsToLower c.description
  let hasCompetitor := c.competitorInfo ≠ "" ∧ 0 < c.competitorInfo.trim.length
  let isCompetitive :=
    hasCompetitor ∨ strIncludes d "competitive" = true ∨ strIncludes d "competitor" = true
  let base := neutralResult "competitive_policy"
  if isCompetitive then
    { base with recommendations :=
        [⟨"competitive_discount", "high"⟩, ⟨"competitive_documentation", "medium"⟩]
        ++ (if c.priority = "critical" then [⟨"expedited_approval", "high"⟩] else []) }
  else base

/-- `PolicyChecker.pilotProgramRules`.  (The `standardDurations` table feeds
only the prose of the `pilot_duration` recommendation.) -/
def pilotProgramRules (c : CaseDraft) : CheckResult :=
  let d := jsToLower c.description
  let base := neutralResult "pilot_program"
  if strIncludes d "pilot" || strIncludes d "trial" || strIncludes d "poc" then
    let r₁ := { base with recommendations := [⟨"pilot_duration", "medium"⟩] }
    if strIncludes d "6 month" || strIncludes d "extended" || strIncludes d "long" then
      { r₁ with warnings := [⟨"extended_pilot", "medium"⟩], score := 70 }
    else r₁
  else base

/-- `PolicyChecker.paymentTerms`. -/
def paymentTerms (c : CaseDraft) : CheckResult :=
  let d := jsToLower c.description
  let base := neutralResult "payment_terms"
  let r₁ :=
    if strIncludes d "net 60" then
      { base with warnings := [⟨"extended_terms", "medium"⟩], score := 80 }
    else base
  if strIncludes d "net 90" || strIncludes d "net 120" then
    { r₁ with
      violations := r₁.violations ++ [⟨"excessive_terms", "high"⟩]
      compliant := false
      score := 40 }
  else r₁

/-- `PolicyChecker.technicalCompliance`: neutral unless the category is
`technical`. -/
def technicalCompliance (c : CaseDraft) : CheckResult :=
  let base := neutralResult "technical_compliance"
  if c.category ≠ "technical" then base
  else
    let d := jsToLower c.description
    let r₁ :=
      if strIncludes d "custom" || strIncludes d "integration" || strIncludes d "api" then
        { base with
          warnings := [⟨"custom_development", "medium"⟩]
          recommendations := [⟨"development_premium", "medium"⟩] }
      else base
    if strIncludes d "security" || strIncludes d "compliance" || strIncludes d "soc"
        || strIncludes d "gdpr" then
      { r₁ with recommendations := r₁.recommendations ++ [⟨"security_review", "high"⟩] }
    else r₁

/-- `PolicyChecker.legalCompliance`: neutral unless the category is
`legal`. -/
def legalCompliance (c : CaseDraft) : CheckResult :=
  let base := neutralResult "legal_compliance"
  if c.category ≠ "legal" then base
  else
    let d := jsToLower c.description
    let r₁ :=
      if strIncludes d "contract" || strIncludes d "terms" || strIncludes d "msa" then
        { base with warnings := [⟨"contract_review", "high"⟩], score := 60 }
      else base
    if strIncludes d "gdpr" || strIncludes d "privacy" || strIncludes d "data residency" then
      { r₁ with recommendations := r₁.recommendations ++ [⟨"privacy_compliance", "high"⟩] }
    else r₁

/-- A compliance check as run by the aggregation loop: it may throw
(`Except.error`). -/
abbrev Check : Type := CaseDraft → Except String CheckResult

/-- The aggregation state threaded through the `for ... of this.complianceChecks`
loop of `checkCompliance`. -/
structure Agg where
  score : ℚ
  violations : List Item
  warnings : List Item
  recommendations : List Advice
  deriving DecidableEq, Repr

/-- Initial `results` of `checkCompliance` (score 100, empty lists). -/
def initAgg : Agg := ⟨100, [], [], []⟩

/-- The system warning recorded when a check throws:
`{ type: 'system', severity: 'medium', message: 'Unable to complete <name> check' }`. -/
def systemWarning : Item := ⟨"system", "medium"⟩

/-- One iteration of the aggregation loop: on success, concatenate the
check's lists and take the `min` of the scores; on an exception, catch it
and append only the system warning for that check. -/
def stepCheck (c : CaseDraft) (st : Agg) (nc : String × Check) : Agg :=
  match nc.2 c with
  | .ok r =>
    { score := min st.score r.score
      violations := st.violations ++ r.violations
      warnings := st.warnings ++ r.warnings
      recommendations := st.recommendations ++ r.recommendations }
  | .error _ => { st with warnings := st.warnings ++ [systemWarning] }

/-- The aggregation loop over a list of named checks. -/
def runChecks (checks : List (String × Check)) (c : CaseDraft) : Agg :=
  checks.foldl (stepCheck c) initAgg

/-- `this.complianceChecks`, in source order; the nine concrete checks are
total, so each is wrapped in `Except.ok`. -/
def complianceChecks : List (String × Check) :=
  [ ("discountCompliance", fun c => .ok (discountCompliance c))
  , ("minimumRequirements", fun c => .ok (minimumRequirements c))
  , ("approvalWorkflow", fun c => .ok (approvalWorkflow c))
  , ("dealStructure", fun c => .ok (dealStructure c))
  , ("competitivePolicy", fun c => .ok (competitivePolicy c))
  , ("pilotProgramRules", fun c => .ok (pilotProgramRules c))
  , ("paymentTerms", fun c => .ok (paymentTerms c))
  , ("technicalCompliance", fun c => .ok (technicalCompliance c))
  , ("legalCompliance", fun c => .ok (legalCompliance c)) ]

/-- `PolicyChecker.determineOverallCompliance`. -/
def determineOverallCompliance (violations warnings : List Item) : String :=
  if 0 < violations.length then
    if 0 < (violations.filter (fun v => v.severity == "high")).length
    then "non_compliant" else "conditional"
  else if 0 < warnings.length then "conditional"
  else "compliant"

/-- The aggregated compliance record.  (The `approvalRequirements`,
`precedentAnalysis` and `riskAssessment` annexes and the `complianceChecks`
per-check map are not consulted by any stated property and are omitted;
the wall-clock `timestamp` is not modelled.) -/
structure ComplianceResults where
  overallCompliance : String
  score : ℚ
  violations : List Item
  warnings : List Item
  recommendations : List Advice
  deriving DecidableEq, Repr

/-- `{ success, compliance }` returned by `checkCompliance`. -/
structure ComplianceOutput where
  success : Bool
  compliance : ComplianceResults
  deriving DecidableEq, Repr

/-- `PolicyChecker.checkCompliance` with an explicit check list (the nine
embedded checks are total, so the outer catch cannot fire and `success`
is `true`). -/
def checkComplianceWith (checks : List (String × Check)) (c : CaseDraft) :
    ComplianceOutput :=
  let agg := runChecks checks c
  { success := true
    compliance :=
    { overallCompliance := determineOverallCompliance agg.violations agg.warnings
      score := agg.score
      violations := agg.violations
      warnings := agg.warnings
      recommendations := agg.recommendations } }

/-- `PolicyChecker.checkCompliance`. -/
def checkCompliance (c : CaseDraft) : ComplianceOutput :=
  checkComplianceWith complianceChecks c

end PolicyChecker

/-! ## Case Router (`caseRouter.js`) -/

namespace CaseRouter

/-- The per-category base complexity weights. -/
def categoryComplexity : List (String × ℚ) :=
  [ ("pricing", 1), ("dealStructure", 2), ("technical", 3), ("legal", 3)
  , ("competitive", 2), ("pilotProgram", 2), ("customerSuccess", 1), ("general", 1) ]

/-- The priority multipliers (`1.2` and `1.5` as rationals). -/
def priorityMultiplier : List (String × ℚ) :=
  [ ("low", 1), ("medium", 6/5), ("high", 3/2), ("critical", 2) ]

/-- Analysis record of `analyzeCaseComplexity`.  (The `factors` prose list is
not modelled.) -/
structure ComplexityAnalysis where
  complexity : String
  complexityScore : ℚ
  riskLevel : String
  autoApprovable : Bool
  precedentAvailable : Bool
  deriving DecidableEq, Repr

/-- `CaseRouter.analyzeCaseComplexity`. -/
def analyzeCaseComplexity (c : CaseDraft) : ComplexityAnalysis :=
  let dealValue := c.dealValue
  let discountPercent := parseFloatOr0 c.discountRequested
  let s₁ : ℚ :=
    if 500000 < dealValue then 3
    else if 100000 < dealValue then 2
    else if 25000 < dealValue then 1
    else 0
  let s₂ : ℚ :=
    if 30 < discountPercent then 3
    else if 20 < discountPercent then 2
    else if 10 < discountPercent then 1
    else 0
  let s₃ : ℚ := (jsGet c.category categoryComplexity).getD 1
  let s₄ : ℚ := (s₁ + s₂ + s₃) * ((jsGet c.priority priorityMultiplier).getD 1)
  let s₅ : ℚ :=
    if c.competitorInfo ≠ "" ∧ c.competitorInfo.trim ≠ "" then s₄ + 2 else s₄
  let score : ℚ :=
    if c.description ≠ "" ∧ strIncludes (jsToLower c.description) "multi-year" = true
    then s₅ + 1 else s₅
  let tiers : String × String :=
    if 8 ≤ score then ("very_complex", "high")
    else if 5 ≤ score then ("complex", "medium")
    else if 3 ≤ score then ("moderate", "medium")
    else ("simple", "low")
  { complexity := tiers.1
    complexityScore := score
    riskLevel := tiers.2
    autoApprovable := decide (score ≤ 2) && decide (discountPercent ≤ 10)
    precedentAvailable := ["pricing", "dealStructure", "competitive"].contains c.category }

/-- The approver-to-level mapping applied to a resolved discount approver
(`includes` here is the case-sensitive JS string `includes`); the level
stays at its initial `2` when nothing matches. -/
def mapApproverLevel (a : String) : ℕ :=
  if strIncludes a "VP" && strIncludes a "Finance" then 5
  else if strIncludes a "VP" then 4
  else if strIncludes a "Director" then 3
  else if strIncludes a "Manager" then 2
  else 2

/-- The `switch (caseData.category)` fallback of `determineApprovalLevel`;
the defaults `('Sales Manager', 2, '24 hours')` survive any branch that does
not overwrite them. -/
def categoryRouting (c : CaseDraft) (discountPercent dealValue : ℚ) :
    String × ℕ × String :=
  if c.category = "technical" then
    if 250000 < dealValue then ("VP Engineering", 4, "72 hours")
    else ("Engineering Manager", 3, "48 hours")
  else if c.category = "legal" then ("Legal + Sales Director", 4, "1 week")
  else if c.category = "competitive" then
    if c.priority = "critical" then ("VP Sales", 4, "4 hours")
    else if 20 < discountPercent then ("Regional Director", 3, "48 hours")
    else ("Sales Manager", 2, "24 hours")
  else if c.category = "customerSuccess" then ("CS Director", 3, "48 hours")
  else
    if 500000 < dealValue then ("VP Sales", 4, "72 hours")
    else if 100000 < dealValue then ("Regional Director", 3, "48 hours")
    else ("Sales Manager", 2, "24 hours")

/-- Result record of `determineApprovalLevel`. -/
structure ApprovalLevelResult where
  primaryApprover : String
  secondaryApprover : Option String
  level : ℕ
  timeline : String
  requiresFinanceApproval : Bool
  requiresLegalReview : Bool
  deriving DecidableEq, Repr

/-- `CaseRouter.determineApprovalLevel`. -/
def determineApprovalLevel (c : CaseDraft) (analysis : ComplexityAnalysis) :
    ApprovalLevelResult :=
  let dealValue := c.dealValue
  let discountPercent := parseFloatOr0 c.discountRequested
  let approvalReq : Option ApprovalRequirement :=
    if 0 < discountPercent ∧ 0 < dealValue
    then some (getApprovalRequirement discountPercent dealValue) else none
  let da := approvalReq.bind ApprovalRequirement.discountApproval
  let plt : String × ℕ × String :=
    if analysis.autoApprovable then ("Auto-approved", 1, "Immediate")
    else
      match da with
      | some entry => (entry.approver, mapApproverLevel entry.approver, entry.timeframe)
      | none => categoryRouting c discountPercent dealValue
  let primaryApprover := plt.1
  let level := plt.2.1
  let timeline := plt.2.2
  let secondaryApprover : Option String :=
    if analysis.riskLevel = "high" ∨ 4 ≤ level then
      if c.category = "legal" then some "General Counsel"
      else if 500000 < dealValue then some "CEO"
      else if strIncludes primaryApprover "Finance" then some "CFO"
      else none
    else none
  { primaryApprover := primaryApprover
    secondaryApprover := secondaryApprover
    level := level
    timeline := timeline
    requiresFinanceApproval :=
      strIncludes primaryApprover "Finance" || decide (500000 < dealValue)
    requiresLegalReview :=
      decide (c.category = "legal") || decide (analysis.riskLevel = "high") }

/-- `routingRules.teams` (primary, secondary, escalation). -/
def teamsTable : List (String × (String × String × String)) :=
  [ ("pricing", ("Sales Manager", "Regional Director", "VP Sales + Finance"))
  , ("technical", ("Solutions Engineer", "Engineering Manager", "VP Engineering"))
  , ("legal", ("Legal Team", "Legal + Sales Director", "General Counsel"))
  , ("competitive", ("Sales Manager", "Regional Director", "VP Sales"))
  , ("customerSuccess", ("Customer Success Manager", "CS Director", "VP Customer Success")) ]

/-- The category-to-team-type map of `assignTeam`. -/
def categoryTeamMap : List (String × String) :=
  [ ("pricing", "pricing"), ("dealStructure", "pricing"), ("technical", "technical")
  , ("legal", "legal"), ("competitive", "competitive"), ("pilotProgram", "pricing")
  , ("customerSuccess", "customerSuccess"), ("general", "pricing") ]

/-- `[...new Set(xs)]`: deduplication keeping first occurrences. -/
def jsSetDedup (l : List String) : List String :=
  l.foldl (fun acc x => if x ∈ acc then acc else acc ++ [x]) []

/-- Team assignment record. -/
structure TeamAssignment where
  primaryTeam : String
  supportingTeams : List String
  escalationTeam : String
  deriving DecidableEq, Repr

/-- `CaseRouter.assignTeam`.  The inner `teams[primaryTeamType]` lookup can
never miss because `categoryTeamMap`'s values are exactly `teamsTable`'s
keys; the default supplied to `getD` is unreachable. -/
def assignTeam (c : CaseDraft) (analysis : ComplexityAnalysis) : TeamAssignment :=
  let primaryTeamType := (jsGet c.category categoryTeamMap).getD "pricing"
  let team := (jsGet primaryTeamType teamsTable).getD
    ("Sales Manager", "Regional Director", "VP Sales + Finance")
  let supporting :=
    (if analysis.riskLevel = "high" then ["Legal Team"] else [])
    ++ (if 250000 < c.dealValue then ["Finance Team"] else [])
    ++ (if c.competitorInfo ≠ "" then ["Product Marketing"] else [])
    ++ (if c.category = "technical" then ["Solutions Engineering"] else [])
  { primaryTeam := team.1
    supportingTeams := jsSetDedup supporting
    escalationTeam := team.2.2 }

/-- `priorityScore` of `assessUrgency`. -/
def priorityUrgencyScore : List (String × ℕ) :=
  [ ("low", 1), ("medium", 2), ("high", 3), ("critical", 4) ]

/-- Urgency record.  (The `factors` prose list is not modelled.) -/
structure UrgencyAssessment where
  level : String
  score : ℕ
  deriving DecidableEq, Repr

/-- `CaseRouter.assessUrgency`. -/
def assessUrgency (c : CaseDraft) : UrgencyAssessment :=
  let u₁ := (jsGet c.priority priorityUrgencyScore).getD 2
  let u₂ := u₁ +
    (if 500000 < c.dealValue then 2 else if 100000 < c.dealValue then 1 else 0)
  let u₃ := u₂ + (if c.competitorInfo ≠ "" then 2 else 0)
  let u₄ := u₃ +
    (if c.timeframe ≠ "" then
      (let tf := jsToLower c.timeframe
       if strIncludes tf "urgent" || strIncludes tf "asap" || strIncludes tf "immediate"
       then 2
       else if strIncludes tf "week" || strIncludes tf "soon" then 1
       else 0)
     else 0)
  let u₅ := u₄ +
    (if c.description ≠ "" ∧ strIncludes (jsToLower c.description) "renewal" = true
        ∧ strIncludes (jsToLower c.description) "risk" = true then 2 else 0)
  let level :=
    if 7 ≤ u₅ then "critical"
    else if 5 ≤ u₅ then "high"
    else if 3 ≤ u₅ then "medium"
    else "low"
  ⟨level, u₅⟩

/-- `CaseRouter.buildEscalationPath`. -/
def buildEscalationPath (c : CaseDraft) (analysis : ComplexityAnalysis) :
    List String :=
  let dealValue := c.dealValue
  if analysis.complexity = "simple" then
    ["Sales Manager"] ++ (if 100000 < dealValue then ["Regional Director"] else [])
  else
    ["Sales Manager", "Regional Director"]
    ++ (if 250000 < dealValue ∨ analysis.riskLevel = "high" then ["VP Sales"] else [])
    ++ (if 500000 < dealValue ∨ c.category = "legal" then ["VP Sales + CEO"] else [])

/-- The `routing` record of `routeCase`'s result. -/
structure RoutingDecision where
  primaryApprover : String
  secondaryApprover : Option String
  team : String
  supportingTeams : List String
  approvalLevel : ℕ
  expectedTimeline : String
  urgency : String
  escalationPath : List String
  deriving DecidableEq, Repr

/-- `routeCase`'s result: the routing record plus the analysis fields of its
`analysis` sub-object.  (The `recommendations` and `routing_rationale` prose
are not consulted by any stated property and are omitted; the embedded
components are all total, so `success` is `true`.) -/
structure RouteResult where
  success : Bool
  routing : RoutingDecision
  complexity : String
  riskLevel : String
  precedentAvailable : Bool
  autoApprovable : Bool
  deriving DecidableEq, Repr

/-- `CaseRouter.routeCase`. -/
def routeCase (c : CaseDraft) : RouteResult :=
  let analysis := analyzeCaseComplexity c
  let approvalRequirement := determineApprovalLevel c analysis
  let teamAssignment := assignTeam c analysis
  let urgencyAssessment := assessUrgency c
  { success := true
    routing :=
    { primaryApprover := approvalRequirement.primaryApprover
      secondaryApprover := approvalRequirement.secondaryApprover
      team := teamAssignment.primaryTeam
      supportingTeams := teamAssignment.supportingTeams
      approvalLevel := approvalRequirement.level
      expectedTimeline := approvalRequirement.timeline
      urgency := urgencyAssessment.level
      escalationPath := buildEscalationPath c analysis }
    complexity := analysis.complexity
    riskLevel := analysis.riskLevel
    precedentAvailable := analysis.precedentAvailable
    autoApprovable := analysis.autoApprovable }

end CaseRouter

/-! ## Aggregation lemmas for the Compliance Checker -/

namespace PolicyChecker

/-- The aggregated score is the `min` of 100 and the nine check scores. -/
theorem checkCompliance_score (c : CaseDraft) :
    (checkCompliance c).compliance.score =
      min 100 (min (discountCompliance c).score
        (min (minimumRequirements c).score
          (min (approvalWorkflow c).score
            (min (dealStructure c).score
              (min (competitivePolicy c).score
                (min (pilotProgramRules c).score
                  (min (paymentTerms c).score
                    (min (technicalCompliance c).score
                      (legalCompliance c).score)))))))) := by
  have h : (checkCompliance c).compliance.score =
      min (min (min (min (min (min (min (min (min 100
        (discountCompliance c).score) (minimumRequirements c).score)
        (approvalWorkflow c).score) (dealStructure c).score)
        (competitivePolicy c).score) (pilotProgramRules c).score)
        (paymentTerms c).score) (technicalCompliance c).score)
        (legalCompliance c).score := rfl
  rw [h]
  simp only [min_assoc]

/-- The aggregated violation list is the concatenation of the nine checks'
violation lists, in check order. -/
theorem checkCompliance_violations (c : CaseDraft) :
    (checkCompliance c).compliance.violations =
      (discountCompliance c).violations ++ (minimumRequirements c).violations
      ++ (approvalWorkflow c).violations ++ (dealStructure c).violations
      ++ (competitivePolicy c).violations ++ (pilotProgramRules c).violations
      ++ (paymentTerms c).violations ++ (technicalCompliance c).violations
      ++ (legalCompliance c).violations := by
  have h : (checkCompliance c).compliance.violations =
      (([] ++ (discountCompliance c).violations ++ (minimumRequirements c).violations
      ++ (approvalWorkflow c).violations ++ (dealStructure c).violations
      ++ (competitivePolicy c).violations ++ (pilotProgramRules c).violations
      ++ (paymentTerms c).violations ++ (technicalCompliance c).violations
      ++ (legalCompliance c).violations) : List Item) := rfl
  rw [h, List.nil_append]

/-- `determineOverallCompliance` in the form the spec states it. -/
theorem determineOverallCompliance_eq (vs ws : List Item) :
    determineOverallCompliance vs ws =
      (if vs.any (fun v => v.severity == "high") then "non_compliant"
       else if vs ≠ [] ∨ ws ≠ [] then "conditional"
       else "compliant") := by
  unfold determineOverallCompliance
  have hfilter : ∀ l : List Item,
      (0 < (l.filter (fun v => v.severity == "high")).length ↔
        l.any (fun v => v.severity == "high") = true) := by
    intro l
    induction l with
    | nil => simp
    | cons v t ih =>
      by_cases hf : v.severity == "high" <;>
        simp [List.filter_cons, List.any_cons, hf, ih]
  have hfilter := hfilter vs
  by_cases hany : vs.any (fun v => v.severity == "high") = true
  · have h1 := hfilter.mpr hany
    have h2 : 0 < vs.length := by
      rcases List.any_eq_true.mp hany with ⟨x, hx, _⟩
      exact List.length_pos.mpr (List.ne_nil_of_mem hx)
    simp [h1, h2, hany]
  · have h1 : ¬ 0 < (vs.filter (fun v => v.severity == "high")).length :=
      fun hh => hany (hfilter.mp hh)
    by_cases hvs : vs = []
    · subst hvs
      by_cases hws : ws = []
      · subst hws
        simp [hany]
      · have : 0 < ws.length := List.length_pos.mpr hws
        simp [hany, this, hws]
    · have h2 : 0 < vs.length := List.length_pos.mpr hvs
      simp [h1, h2, hany, hvs]

end PolicyChecker

/-! ## Concrete cases used in counterexamples and witnesses -/

/-- The end-to-end auto-approval scenario of the spec:
`discountRequested=5`, `dealValue=20000`, `category="pricing"`,
`priority="low"`. -/
def c3ex : CaseDraft := ⟨"", "pricing", "low", "", "", 20000, some 5, "", "", ""⟩

/-- A high-value legal case whose 5% discount resolves the discount-bracket
approver `Auto-approved` at level 2. -/
def c4cx : CaseDraft := ⟨"", "legal", "low", "", "", 600000, some 5, "", "", ""⟩

/-- A non-pricing case on which the discount check is not applicable. -/
def c8wit : CaseDraft := ⟨"", "legal", "low", "", "", 0, none, "", "", ""⟩

/-! ## Claims -/

/-- C1 (counterexample): the claimed invariant
`autoApprovedLimit ≤ typicalDiscount` fails on the add-on entry: the stored
policy for `(addon, all)` is `{max: 5, typical: 0, autoApproved: 5}` and
`5 ≤ 0` is false. -/
theorem claim_C1_counterexample :
    getDiscountPolicy "addon" "all" "namer" =
      some ⟨5, 0, 5, 0, 5⟩ ∧ ¬ ((5 : ℚ) ≤ (0 : ℚ)) := by
  constructor
  · simp [getDiscountPolicy, regionalAdjustmentOf, jsGet,
      standardDiscountPolicies, regionalDiscountPolicies]
  · norm_num

/-- C1 (amended): for every entry of the discount-policy tables,
`typicalDiscount ≤ maxDiscount` and `autoApprovedLimit ≤ maxDiscount`, and
`autoApprovedLimit ≤ typicalDiscount` for every entry except `(addon, all)`;
and every successful `getDiscountPolicy` lookup returns
`effectiveMax = maxDiscount + regionalAdjustment` with `regionalAdjustment`
the region's `additionalDiscount || 0`. -/
theorem claim_C1_policy_invariants :
    (∀ p ∈ standardDiscountPolicies, ∀ q ∈ p.2,
      q.2.typical ≤ q.2.max ∧ q.2.autoApproved ≤ q.2.max ∧
        ((p.1, q.1) ≠ ("addon", "all") → q.2.autoApproved ≤ q.2.typical))
    ∧ (∀ dealType segment region pol,
        getDiscountPolicy dealType segment region = some pol →
          pol.effectiveMax = pol.max + pol.regionalAdjustment ∧
          pol.regionalAdjustment = regionalAdjustmentOf region) := by
  constructor
  · decide
  · intro dt seg region pol h
    unfold getDiscountPolicy at h
    rcases h1 : jsGet dt standardDiscountPolicies with _ | row <;>
        simp only [h1] at h
    · exact absurd h (by simp)
    · rcases h2 : jsGet seg row with _ | e <;> simp only [h2] at h
      · exact absurd h (by simp)
      · simp only [Option.some.injEq] at h
        subst h
        exact ⟨rfl, rfl⟩

/-- C1 (witness): the `(newBusiness, enterprise)` entry satisfies the
invariants, and the `apac` lookup returns `effectiveMax = 20 + 7`. -/
theorem claim_C1_witness :
    ((15 : ℚ) ≤ 20 ∧ (10 : ℚ) ≤ 20 ∧
      (("newBusiness", "enterprise") ≠ ("addon", "all") → (10 : ℚ) ≤ 15))
    ∧ ((27 : ℚ) = 20 + 7 ∧ (7 : ℚ) = regionalAdjustmentOf "apac") :=
  ⟨claim_C1_policy_invariants.1
      ("newBusiness",
        [ ("enterprise", ⟨20, 15, 10⟩)
        , ("midmarket", ⟨15, 10, 7⟩)
        , ("smb", ⟨10, 5, 5⟩)
        , ("largeEnterprise", ⟨25, 20, 15⟩)
        , ("globalAccounts", ⟨30, 25, 20⟩) ])
      (by decide) ("enterprise", ⟨20, 15, 10⟩) (by decide),
   claim_C1_policy_invariants.2 "newBusiness" "enterprise" "apac"
      ⟨20, 15, 10, 7, 27⟩
      (by simp [getDiscountPolicy, regionalAdjustmentOf, jsGet,
        standardDiscountPolicies, regionalDiscountPolicies]
          norm_num)⟩

/-- C2: for every CaseDraft, `checkCompliance`'s overall score is
`min(100, minimum of the nine check scores)`, and `overallCompliance` is
`non_compliant` when some aggregated violation has severity `high`, else
`conditional` when any violations or warnings exist, else `compliant`. -/
theorem claim_C2_aggregation (c : CaseDraft) :
    (PolicyChecker.checkCompliance c).compliance.score =
      min 100 (min (PolicyChecker.discountCompliance c).score
        (min (PolicyChecker.minimumRequirements c).score
          (min (PolicyChecker.approvalWorkflow c).score
            (min (PolicyChecker.dealStructure c).score
              (min (PolicyChecker.competitivePolicy c).score
                (min (PolicyChecker.pilotProgramRules c).score
                  (min (PolicyChecker.paymentTerms c).score
                    (min (PolicyChecker.technicalCompliance c).score
                      (PolicyChecker.legalCompliance c).score))))))))
    ∧ (PolicyChecker.checkCompliance c).compliance.overallCompliance =
      (if (PolicyChecker.checkCompliance c).compliance.violations.any
            (fun v => v.severity == "high") then "non_compliant"
       else if (PolicyChecker.checkCompliance c).compliance.violations ≠ []
          ∨ (PolicyChecker.checkCompliance c).compliance.warnings ≠ [] then
         "conditional"
       else "compliant") :=
  ⟨PolicyChecker.checkCompliance_score c,
   PolicyChecker.determineOverallCompliance_eq _ _⟩

/-- C3: `autoApprovable` holds iff the complexity score is at most 2 and the
requested discount is at most 10; and on the concrete scenario
(`discountRequested=5`, `dealValue=20000`, `category="pricing"`,
`priority="low"`) routing is auto-approved with immediate timeline. -/
theorem claim_C3_auto_approval :
    (∀ c : CaseDraft,
      (CaseRouter.analyzeCaseComplexity c).autoApprovable = true ↔
        ((CaseRouter.analyzeCaseComplexity c).complexityScore ≤ 2 ∧
          parseFloatOr0 c.discountRequested ≤ 10))
    ∧ (CaseRouter.routeCase c3ex).autoApprovable = true
    ∧ (CaseRouter.routeCase c3ex).routing.primaryApprover = "Auto-approved"
    ∧ (CaseRouter.routeCase c3ex).routing.expectedTimeline = "Immediate" := by
  refine ⟨?_, ?_, ?_, ?_⟩
  · intro c
    simp only [CaseRouter.analyzeCaseComplexity]
    simp [Bool.and_eq_true, decide_eq_true_eq]
  · norm_num [CaseRouter.routeCase, CaseRouter.analyzeCaseComplexity, c3ex,
      CaseRouter.categoryComplexity, CaseRouter.priorityMultiplier, jsGet,
      parseFloatOr0]
  · norm_num [CaseRouter.routeCase, CaseRouter.determineApprovalLevel,
      CaseRouter.analyzeCaseComplexity, c3ex, CaseRouter.categoryComplexity,
      CaseRouter.priorityMultiplier, jsGet, parseFloatOr0]
  · norm_num [CaseRouter.routeCase, CaseRouter.determineApprovalLevel,
      CaseRouter.analyzeCaseComplexity, c3ex, CaseRouter.categoryComplexity,
      CaseRouter.priorityMultiplier, jsGet, parseFloatOr0]

/-- C4 (counterexample): `c4cx` has `dealValue = 600000 > 500000` and the
legal (hence legal/finance-eligible) category, yet `routeCase` returns no
secondary approver: its 5% discount resolves the `0-10%` bracket approver
`Auto-approved`, leaving the level at 2 with medium risk. -/
theorem claim_C4_counterexample :
    (500000 : ℚ) < c4cx.dealValue ∧ c4cx.category = "legal" ∧
    (CaseRouter.routeCase c4cx).routing.secondaryApprover = none := by
  refine ⟨by norm_num [c4cx], rfl, ?_⟩
  have h1 : strIncludes "Auto-approved" "VP" = false := rfl
  have h2 : strIncludes "Auto-approved" "Finance" = false := rfl
  have h3 : strIncludes "Auto-approved" "Director" = false := rfl
  have h4 : strIncludes "Auto-approved" "Manager" = false := rfl
  simp [CaseRouter.routeCase, CaseRouter.determineApprovalLevel,
    CaseRouter.analyzeCaseComplexity, c4cx, CaseRouter.categoryComplexity,
    CaseRouter.priorityMultiplier, jsGet, parseFloatOr0,
    CaseRouter.mapApproverLevel, h1, h2, h3, h4]
  norm_num
  exact ⟨by decide, by decide⟩

/-- C4 (amended): for a CaseDraft with `dealValue > 500000`, the routing
decision carries a non-null `secondaryApprover` whenever the computed risk
level is `high` or the approval level is at least 4 (General Counsel for the
legal category, CEO otherwise); outside those conditions — e.g. when a small
discount resolves the `Auto-approved` bracket at level 2 — it is null. -/
theorem claim_C4_high_value_secondary (c : CaseDraft)
    (hv : (500000 : ℚ) < c.dealValue)
    (hcond : (CaseRouter.routeCase c).riskLevel = "high" ∨
      4 ≤ (CaseRouter.routeCase c).routing.approvalLevel) :
    (CaseRouter.routeCase c).routing.secondaryApprover ≠ none := by
  have hrisk : (CaseRouter.routeCase c).riskLevel =
      (CaseRouter.analyzeCaseComplexity c).riskLevel := rfl
  have hlevel : (CaseRouter.routeCase c).routing.approvalLevel =
      (CaseRouter.determineApprovalLevel c (CaseRouter.analyzeCaseComplexity c)).level :=
    rfl
  have hsec : (CaseRouter.routeCase c).routing.secondaryApprover =
      (CaseRouter.determineApprovalLevel c
        (CaseRouter.analyzeCaseComplexity c)).secondaryApprover := rfl
  rw [hrisk, hlevel] at hcond
  rw [hsec]
  have hspec : ∀ a : CaseRouter.ComplexityAnalysis,
      (CaseRouter.determineApprovalLevel c a).secondaryApprover =
        (if a.riskLevel = "high" ∨ 4 ≤ (CaseRouter.determineApprovalLevel c a).level
         then
          (if c.category = "legal" then some "General Counsel"
           else if 500000 < c.dealValue then some "CEO"
           else if strIncludes
              (CaseRouter.determineApprovalLevel c a).primaryApprover "Finance"
           then some "CFO"
           else none)
         else none) := fun a => rfl
  rw [hspec, if_pos hcond]
  split_ifs with hleg hdeal hfin <;> simp_all

/-- C4 (witness): on a critical-priority competitive 600k case the risk
level is high, and the secondary approver is present. -/
def c4wit : CaseDraft := ⟨"", "general", "critical", "", "", 600000, some 5, "", "", ""⟩

theorem claim_C4_witness :
    ((500000 : ℚ) < c4wit.dealValue ∧
      ((CaseRouter.routeCase c4wit).riskLevel = "high" ∨
        4 ≤ (CaseRouter.routeCase c4wit).routing.approvalLevel)) ∧
    (CaseRouter.routeCase c4wit).routing.secondaryApprover ≠ none :=
  ⟨⟨by norm_num [c4wit],
    by
      left
      simp [CaseRouter.routeCase, CaseRouter.analyzeCaseComplexity, c4wit,
        CaseRouter.categoryComplexity, CaseRouter.priorityMultiplier, jsGet,
        parseFloatOr0]
      norm_num⟩,
   claim_C4_high_value_secondary c4wit (by norm_num [c4wit])
     (by
       left
       simp [CaseRouter.routeCase, CaseRouter.analyzeCaseComplexity, c4wit,
         CaseRouter.categoryComplexity, CaseRouter.priorityMultiplier, jsGet,
         parseFloatOr0]
       norm_num)⟩

/-- C8: a check that throws is caught locally — the aggregation records the
medium-severity `system` warning for that check and the remaining checks
still fold from that state, with the output still marked successful — and
the discount check on an inapplicable case (falsy discount or non-pricing
category) returns the untouched neutral result (compliant, score 100). -/
theorem claim_C8_check_failure_isolation :
    (∀ (c : CaseDraft) (pre post : List (String × PolicyChecker.Check))
        (nm e : String),
      PolicyChecker.runChecks (pre ++ (nm, fun _ => Except.error e) :: post) c =
        List.foldl (PolicyChecker.stepCheck c)
          { PolicyChecker.runChecks pre c with
            warnings := (PolicyChecker.runChecks pre c).warnings
              ++ [PolicyChecker.systemWarning] }
          post
      ∧ (PolicyChecker.checkComplianceWith
          (pre ++ (nm, fun _ => Except.error e) :: post) c).success = true)
    ∧ (∀ c : CaseDraft,
        numTruthy c.discountRequested = false ∨ c.category ≠ "pricing" →
          PolicyChecker.discountCompliance c =
            PolicyChecker.neutralResult "discount_compliance") := by
  constructor
  · intro c pre post nm e
    constructor
    · rw [PolicyChecker.runChecks, List.foldl_append]
      rfl
    · rfl
  · intro c h
    unfold PolicyChecker.discountCompliance
    rw [if_pos h]

/-- C8 (witness): on a legal-category case with no discount, the discount
check is inapplicable and returns the neutral result; and a singleton list
containing only a throwing check aggregates to the system warning alone. -/
theorem claim_C8_witness :
    ((numTruthy c8wit.discountRequested = false ∨ c8wit.category ≠ "pricing") ∧
      PolicyChecker.discountCompliance c8wit =
        PolicyChecker.neutralResult "discount_compliance") ∧
    PolicyChecker.runChecks [("boom", fun _ => Except.error "fail")] c8wit =
      List.foldl (PolicyChecker.stepCheck c8wit)
        { PolicyChecker.runChecks [] c8wit with
          warnings := (PolicyChecker.runChecks [] c8wit).warnings
            ++ [PolicyChecker.systemWarning] }
        [] :=
  ⟨⟨Or.inl (by decide),
    claim_C8_check_failure_isolation.2 c8wit (Or.inl (by decide))⟩,
   (claim_C8_check_failure_isolation.1 c8wit [] [] "boom" "fail").1⟩

/-- C9: any fractional discount strictly inside one of the gaps
`(10, 11)`, `(20, 21)`, `(30, 31)` resolves no discount-bracket approver:
`getApprovalRequirement` leaves `discountApproval` undefined for it,
whatever the deal size. -/
theorem claim_C9_discount_bracket_gaps (p v : ℚ)
    (h : (10 < p ∧ p < 11) ∨ (20 < p ∧ p < 21) ∨ (30 < p ∧ p < 31)) :
    (getApprovalRequirement p v).discountApproval = none := by
  have hfind : discountApprovalFind p = none := by
    unfold discountApprovalFind
    split_ifs with h1 h2 h3 h4
    · exfalso
      rcases h with ⟨a, b⟩ | ⟨a, b⟩ | ⟨a, b⟩ <;> linarith [h1.1, h1.2]
    · exfalso
      rcases h with ⟨a, b⟩ | ⟨a, b⟩ | ⟨a, b⟩ <;> linarith [h2.1, h2.2]
    · exfalso
      rcases h with ⟨a, b⟩ | ⟨a, b⟩ | ⟨a, b⟩ <;> linarith [h3.1, h3.2]
    · exfalso
      rcases h with ⟨a, b⟩ | ⟨a, b⟩ | ⟨a, b⟩ <;> linarith [h4]
    · rfl
  exact hfind

/-- C9 (witness): at 10.5% (and any deal size, here 100000) the lookup
resolves no discount approver. -/
theorem claim_C9_witness :
    (((10 : ℚ) < 21/2 ∧ (21/2 : ℚ) < 11) ∨
      ((20 : ℚ) < 21/2 ∧ (21/2 : ℚ) < 21) ∨
      ((30 : ℚ) < 21/2 ∧ (21/2 : ℚ) < 31)) ∧
    (getApprovalRequirement (21/2) 100000).discountApproval = none :=
  ⟨Or.inl (by norm_num),
   claim_C9_discount_bracket_gaps (21/2) 100000 (Or.inl (by norm_num))⟩

/-! ## Monotonicity support for the discount check -/

namespace PolicyChecker

/-- Severity ordering used to compare violation severities:
`high > medium > low >` anything else. -/
def sevRank (s : String) : ℕ :=
  if s = "high" then 3 else if s = "medium" then 2 else if s = "low" then 1 else 0

/-- The maximum severity rank over a list of violations (0 when empty). -/
def maxSevRank (vs : List Item) : ℕ :=
  (vs.map (fun v => sevRank v.severity)).foldr max 0

theorem foldr_max_init (l : List ℕ) (i : ℕ) :
    l.foldr max i = max (l.foldr max 0) i := by
  induction l with
  | nil => simp
  | cons a t ih => simp [List.foldr_cons, ih, Nat.max_assoc]

theorem maxSevRank_append (a b : List Item) :
    maxSevRank (a ++ b) = max (maxSevRank a) (maxSevRank b) := by
  unfold maxSevRank
  rw [List.map_append, List.foldr_append, foldr_max_init]

/-- Closed form of the discount check's score. -/
theorem discountCompliance_score_eq (c : CaseDraft) :
    (discountCompliance c).score =
      (if numTruthy c.discountRequested = false ∨ c.category ≠ "pricing" then 100
       else
        match getDiscountPolicy (inferDealType c) (inferSegment c) with
        | none => 100
        | some policy =>
          if policy.max < parseFloatOr0 c.discountRequested then 20
          else if policy.autoApproved < parseFloatOr0 c.discountRequested then 70
          else (100 : ℚ)) := by
  unfold discountCompliance
  by_cases h : numTruthy c.discountRequested = false ∨ c.category ≠ "pricing"
  · rw [if_pos h, if_pos h]
    rfl
  · rw [if_neg h, if_neg h]
    rcases hpol : getDiscountPolicy (inferDealType c) (inferSegment c) with _ | policy <;>
      simp only [hpol]
    · rfl
    · split_ifs <;> rfl

/-- Closed form of the discount check's violation list. -/
theorem discountCompliance_violations_eq (c : CaseDraft) :
    (discountCompliance c).violations =
      (if numTruthy c.discountRequested = false ∨ c.category ≠ "pricing" then []
       else
        match getDiscountPolicy (inferDealType c) (inferSegment c) with
        | none => []
        | some policy =>
          if policy.max < parseFloatOr0 c.discountRequested then
            [⟨"discount_limit_exceeded", "high"⟩]
          else ([] : List Item)) := by
  unfold discountCompliance
  by_cases h : numTruthy c.discountRequested = false ∨ c.category ≠ "pricing"
  · rw [if_pos h, if_pos h]
    rfl
  · rw [if_neg h, if_neg h]
    rcases hpol : getDiscountPolicy (inferDealType c) (inferSegment c) with _ | policy <;>
      simp only [hpol]
    · rfl
    · split_ifs <;> rfl

/-- The eight checks other than the discount check never read
`discountRequested` into their scores or violations: seven ignore the field
altogether, and the approval-workflow check keeps score 100 and no
violations. -/
theorem minimumRequirements_update (c : CaseDraft) (d : Option ℚ) :
    minimumRequirements {c with discountRequested := d} = minimumRequirements c := by
  cases c
  rfl

theorem dealStructure_update (c : CaseDraft) (d : Option ℚ) :
    dealStructure {c with discountRequested := d} = dealStructure c := by
  cases c
  rfl

theorem competitivePolicy_update (c : CaseDraft) (d : Option ℚ) :
    competitivePolicy {c with discountRequested := d} = competitivePolicy c := by
  cases c
  rfl

theorem pilotProgramRules_update (c : CaseDraft) (d : Option ℚ) :
    pilotProgramRules {c with discountRequested := d} = pilotProgramRules c := by
  cases c
  rfl

theorem paymentTerms_update (c : CaseDraft) (d : Option ℚ) :
    paymentTerms {c with discountRequested := d} = paymentTerms c := by
  cases c
  rfl

theorem technicalCompliance_update (c : CaseDraft) (d : Option ℚ) :
    technicalCompliance {c with discountRequested := d} = technicalCompliance c := by
  cases c
  rfl

theorem legalCompliance_update (c : CaseDraft) (d : Option ℚ) :
    legalCompliance {c with discountRequested := d} = legalCompliance c := by
  cases c
  rfl

theorem approvalWorkflow_score (c : CaseDraft) : (approvalWorkflow c).score = 100 := rfl

theorem approvalWorkflow_violations (c : CaseDraft) :
    (approvalWorkflow c).violations = [] := rfl

/-- Every stored discount-policy bound is nonnegative, hence so are the
bounds of any successful lookup. -/
theorem getDiscountPolicy_nonneg {dt seg : String} {pol : DiscountPolicyResult}
    (h : getDiscountPolicy dt seg "namer" = some pol) :
    0 ≤ pol.max ∧ 0 ≤ pol.autoApproved := by
  have hall : standardDiscountPolicies.all
      (fun p => p.2.all (fun q =>
        decide (0 ≤ q.2.max) && decide (0 ≤ q.2.autoApproved))) = true := by decide
  unfold getDiscountPolicy at h
  rcases h1 : jsGet dt standardDiscountPolicies with _ | row <;> simp only [h1] at h
  · exact absurd h (by simp)
  · rcases h2 : jsGet seg row with _ | e <;> simp only [h2] at h
    · exact absurd h (by simp)
    · have hrow := jsGet_all hall h1
      simp only [List.all_eq_true] at hrow
      have hentry := jsGet_all (List.all_eq_true.mpr hrow) h2
      simp only [Bool.and_eq_true, decide_eq_true_eq] at hentry
      simp only [Option.some.injEq] at h
      subst h
      exact hentry

/-- Raising the requested discount (all else fixed) never raises the
discount check's score and never lowers its violation severity. -/
theorem discountCompliance_mono (c : CaseDraft) (d₁ d₂ : ℚ) (h : d₁ < d₂) :
    (discountCompliance {c with discountRequested := some d₂}).score ≤
      (discountCompliance {c with discountRequested := some d₁}).score ∧
    maxSevRank (discountCompliance {c with discountRequested := some d₁}).violations ≤
      maxSevRank (discountCompliance {c with discountRequested := some d₂}).violations := by
  obtain ⟨ti, cat, pr, de, bj, dv, dr, tf, ci, cu⟩ := c
  rw [discountCompliance_score_eq, discountCompliance_score_eq,
    discountCompliance_violations_eq, discountCompliance_violations_eq]
  simp only [numTruthy]
  have hseg : inferSegment ⟨ti, cat, pr, de, bj, dv, some d₂, tf, ci, cu⟩ =
      inferSegment ⟨ti, cat, pr, de, bj, dv, some d₁, tf, ci, cu⟩ := rfl
  have hdt : inferDealType ⟨ti, cat, pr, de, bj, dv, some d₂, tf, ci, cu⟩ =
      inferDealType ⟨ti, cat, pr, de, bj, dv, some d₁, tf, ci, cu⟩ := rfl
  rw [hseg, hdt]
  simp only [parseFloatOr0]
  rcases hpol : getDiscountPolicy
      (inferDealType ⟨ti, cat, pr, de, bj, dv, some d₁, tf, ci, cu⟩)
      (inferSegment ⟨ti, cat, pr, de, bj, dv, some d₁, tf, ci, cu⟩) with _ | pol <;>
    simp only [hpol]
  · constructor
    · split_ifs <;> norm_num
    · split_ifs <;> simp [maxSevRank]
  · have hb := getDiscountPolicy_nonneg hpol
    by_cases hcat : cat ≠ "pricing"
    · simp [hcat]
    · simp only [not_not] at hcat
      simp only [hcat, ne_eq, not_true_eq_false, or_false,
        decide_eq_false_iff_not, not_not]
      by_cases h1 : d₁ = 0
      · subst h1
        have hd2 : ¬ d₂ = 0 := by
          intro h0
          rw [h0] at h
          exact absurd h (by norm_num)
        rw [if_pos rfl, if_pos rfl, if_neg hd2, if_neg hd2]
        constructor
        · split_ifs <;> norm_num
        · exact Nat.zero_le _
      · by_cases h2 : d₂ = 0
        · have hd1 : d₁ < 0 := by
            rw [h2] at h
            exact h
          rw [if_neg h1, if_neg h1, if_pos h2, if_pos h2]
          have hmax : ¬ pol.max < d₁ := by linarith [hb.1]
          have hauto : ¬ pol.autoApproved < d₁ := by linarith [hb.2]
          rw [if_neg hmax, if_neg hauto, if_neg hmax]
          exact ⟨le_refl _, Nat.le_refl _⟩
        · rw [if_neg h1, if_neg h1, if_neg h2, if_neg h2]
          constructor
          · split_ifs <;> first | (exfalso; linarith) | norm_num
          · split_ifs with a b
            · exact Nat.le_refl _
            · exfalso
              exact b (by linarith)
            · exact Nat.zero_le _
            · exact Nat.zero_le _

end PolicyChecker

/-- Base case for the monotonicity witness. -/
def c5wit : CaseDraft := ⟨"", "pricing", "low", "", "", 20000, none, "", "", ""⟩

/-- C5: on two CaseDrafts identical except for a strictly larger
`discountRequested`, the Compliance Checker's score never increases and the
maximum violation severity never decreases. -/
theorem claim_C5_discount_monotonicity (c : CaseDraft) (d₁ d₂ : ℚ) (h : d₁ < d₂) :
    (PolicyChecker.checkCompliance {c with discountRequested := some d₂}).compliance.score ≤
      (PolicyChecker.checkCompliance {c with discountRequested := some d₁}).compliance.score ∧
    PolicyChecker.maxSevRank
        (PolicyChecker.checkCompliance
          {c with discountRequested := some d₁}).compliance.violations ≤
      PolicyChecker.maxSevRank
        (PolicyChecker.checkCompliance
          {c with discountRequested := some d₂}).compliance.violations := by
  rw [PolicyChecker.checkCompliance_score, PolicyChecker.checkCompliance_score,
    PolicyChecker.checkCompliance_violations, PolicyChecker.checkCompliance_violations]
  simp only [PolicyChecker.minimumRequirements_update, PolicyChecker.dealStructure_update,
    PolicyChecker.competitivePolicy_update, PolicyChecker.pilotProgramRules_update,
    PolicyChecker.paymentTerms_update, PolicyChecker.technicalCompliance_update,
    PolicyChecker.legalCompliance_update, PolicyChecker.approvalWorkflow_score,
    PolicyChecker.approvalWorkflow_violations]
  obtain ⟨hds, hdv⟩ := PolicyChecker.discountCompliance_mono c d₁ d₂ h
  constructor
  · exact min_le_min le_rfl (min_le_min hds le_rfl)
  · simp only [PolicyChecker.maxSevRank_append]
    exact max_le_max (max_le_max (max_le_max (max_le_max
      (max_le_max (max_le_max (max_le_max (max_le_max hdv
        (Nat.le_refl _)) (Nat.le_refl _)) (Nat.le_refl _)) (Nat.le_refl _))
        (Nat.le_refl _)) (Nat.le_refl _)) (Nat.le_refl _)) (Nat.le_refl _)

/-- C5 (witness): at `dealValue = 20000` (midmarket, policy max 15), raising
the discount from 12% to 18% lowers the score and raises the violation
severity. -/
theorem claim_C5_witness :
    (12 : ℚ) < 18 ∧
    ((PolicyChecker.checkCompliance
        {c5wit with discountRequested := some 18}).compliance.score ≤
      (PolicyChecker.checkCompliance
        {c5wit with discountRequested := some 12}).compliance.score ∧
     PolicyChecker.maxSevRank
        (PolicyChecker.checkCompliance
          {c5wit with discountRequested := some 12}).compliance.violations ≤
      PolicyChecker.maxSevRank
        (PolicyChecker.checkCompliance
          {c5wit with discountRequested := some 18}).compliance.violations) :=
  ⟨by norm_num, claim_C5_discount_monotonicity c5wit 12 18 (by norm_num)⟩

/-! ## Scenario-matcher equivalence (C6) -/

theorem any_eq_decide_one_le {α : Type} (l : List α) (p : α → Bool) :
    l.any p = decide (1 ≤ (l.filter p).length) := by
  induction l with
  | nil => simp
  | cons a t ih =>
    by_cases hp : p a <;> simp [List.any_cons, List.filter_cons, hp, ih] <;> omega

theorem le_foldr_max_head {α : Type} (cnt : α → ℕ) (x : α) (xs : List α) :
    cnt x ≤ ((x :: xs).map cnt).foldr max 0 := by
  simp only [List.map_cons, List.foldr_cons]
  exact le_max_left _ _

theorem le_foldr_max_second {α : Type} (cnt : α → ℕ) (x y : α) (ys : List α) :
    cnt y ≤ ((x :: y :: ys).map cnt).foldr max 0 := by
  simp only [List.map_cons, List.foldr_cons]
  exact (le_max_left (cnt y) _).trans (le_max_right _ _)

theorem find_max_eq_foldl {α : Type} (cnt : α → ℕ) :
    ∀ (xs : List α) (x : α) (M : ℕ),
      M = ((x :: xs).map cnt).foldr max 0 →
      (x :: xs).find? (fun s => cnt s == M) =
        some (xs.foldl (fun best current =>
          if cnt best < cnt current then current else best) x) := by
  intro xs
  induction xs with
  | nil =>
    intro x M hM
    simp only [List.map_cons, List.map_nil, List.foldr_cons, List.foldr_nil,
      Nat.max_zero] at hM
    subst hM
    simp [List.find?]
  | cons y ys ih =>
    intro x M hM
    rw [List.foldl_cons]
    by_cases hxy : cnt x < cnt y
    · rw [if_pos hxy]
      have hyle : cnt y ≤ M := hM ▸ le_foldr_max_second cnt x y ys
      have hxM : (cnt x == M) = false := by
        simp only [beq_eq_false_iff_ne, ne_eq]
        omega
      have hM' : M = ((y :: ys).map cnt).foldr max 0 := by
        simp only [List.map_cons, List.foldr_cons] at hM ⊢
        rw [hM, Nat.max_eq_right]
        exact le_of_lt (lt_of_lt_of_le hxy
          ((le_max_left (cnt y) _).trans le_rfl))
      simp only [List.find?, hxM]
      exact ih y M hM'
    · rw [if_neg hxy]
      have hxyle : cnt y ≤ cnt x := Nat.not_lt.mp hxy
      have hM' : M = ((x :: ys).map cnt).foldr max 0 := by
        simp only [List.map_cons, List.foldr_cons] at hM ⊢
        rw [hM, ← Nat.max_assoc, Nat.max_eq_left hxyle]
      rw [← ih x M hM']
      by_cases hx : (cnt x == M) = true
      · simp only [List.find?, hx]
      · have hx' : (cnt x == M) = false := by
          simp only [Bool.not_eq_true] at hx
          exact hx
        have hxle : cnt x ≤ M := hM ▸ le_foldr_max_head cnt x (y :: ys)
        have hy : (cnt y == M) = false := by
          simp only [beq_iff_eq] at hx
          simp only [beq_eq_false_iff_ne, ne_eq]
          omega
        simp only [List.find?, hx', hy]

/-- C6: for every utterance, `findMatchingScenario` returns exactly what the
spec describes — `none` when no scenario has a keyword count of at least 1,
and otherwise the qualifying scenario with the highest keyword count, ties
broken in favor of the scenario listed earlier in the catalog. -/
theorem claim_C6_scenario_matcher (userInput : String) :
    findMatchingScenario userInput = claimScenarioMatch userInput := by
  simp only [findMatchingScenario, claimScenarioMatch]
  have hfeq : customerScenarios.filter
      (fun sc => sc.keywords.any
        (fun kw => strIncludes (jsToLower userInput) (jsToLower kw))) =
    customerScenarios.filter
      (fun sc => decide (1 ≤ keywordScore (jsToLower userInput) sc)) := by
    apply List.filter_congr
    intro sc _
    rw [any_eq_decide_one_le]
    rfl
  rw [hfeq]
  rcases hq : customerScenarios.filter
      (fun sc => decide (1 ≤ keywordScore (jsToLower userInput) sc)) with _ | ⟨x, xs⟩
  · simp only [hq]
    rfl
  · rcases xs with _ | ⟨y, ys⟩
    · simp only [hq]
      rw [find_max_eq_foldl (keywordScore (jsToLower userInput)) [] x _ rfl]
      rfl
    · simp only [hq]
      rw [find_max_eq_foldl (keywordScore (jsToLower userInput)) (y :: ys) x _ rfl]

theorem digit_toLower {c : Char} (h : c.isDigit = true) : c.toLower = c := by
  simp only [Char.isDigit, Bool.and_eq_true, decide_eq_true_eq] at h
  obtain ⟨h1, h2⟩ := h
  have h2' : c.val.toNat ≤ 57 := UInt32.toNat_le_of_le (by norm_num) h2
  simp only [Char.toLower, Char.toNat]
  rw [if_neg]
  intro hco
  omega

theorem digit_ne_km {c : Char} (h : c.isDigit = true) :
    (c.toLower = 'k') = False ∧ (c.toLower = 'm') = False := by
  rw [digit_toLower h]
  constructor <;> simp only [eq_iff_iff, iff_false] <;> intro hco <;> subst hco
  · exact absurd h (by decide)
  · exact absurd h (by decide)

theorem takeWhile_all {p : Char → Bool} :
    ∀ d : List Char, (∀ c ∈ d, p c = true) →
      d.takeWhile p = d ∧ d.dropWhile p = [] := by
  intro d
  induction d with
  | nil => simp
  | cons c t ih =>
    intro h
    have hc : p c = true := h c (List.mem_cons_self c t)
    have ht := ih fun x hx => h x (List.mem_cons_of_mem c hx)
    simp [List.takeWhile_cons, List.dropWhile_cons, hc, ht.1, ht.2]

theorem takeWhile_all_append {p : Char → Bool} {d : List Char} (x : Char)
    (r : List Char) (hd : ∀ c ∈ d, p c = true) (hx : p x = false) :
    (d ++ x :: r).takeWhile p = d ∧ (d ++ x :: r).dropWhile p = x :: r := by
  induction d with
  | nil => simp [List.takeWhile_cons, List.dropWhile_cons, hx]
  | cons c t ih =>
    have hc : p c = true := hd c (List.mem_cons_self c t)
    have ht := ih fun y hy => hd y (List.mem_cons_of_mem c hy)
    simp [List.takeWhile_cons, List.dropWhile_cons, hc, ht.1, ht.2]

theorem pctMatchAt_cons (c : Char) (t : List Char) :
    pctMatchAt (c :: t) =
      (if c.isDigit = true then
        pctAfterDigits ((c :: t).takeWhile Char.isDigit)
          ((c :: t).dropWhile Char.isDigit)
       else none) := rfl

theorem pctMatchAt_none {c : Char} (t : List Char) (h : c.isDigit = false) :
    pctMatchAt (c :: t) = none := by
  rw [pctMatchAt_cons, h]
  simp

theorem pctScan_skip {c : Char} (t : List Char) (h : c.isDigit = false) :
    pctScan (c :: t) = pctScan t := by
  rw [pctScan]
  split
  · next tok rest heq =>
      rw [pctMatchAt_none t h] at heq
      exact absurd heq (by simp)
  · rfl

theorem pctScan_skip_all {pre : List Char} (rest : List Char)
    (h : ∀ c ∈ pre, c.isDigit = false) :
    pctScan (pre ++ rest) = pctScan rest := by
  induction pre with
  | nil => simp
  | cons c t ih =>
    have hc : c.isDigit = false := h c (List.mem_cons_self c t)
    rw [List.cons_append, pctScan_skip _ hc]
    exact ih fun x hx => h x (List.mem_cons_of_mem c hx)

theorem pctMatchAt_digits {d : List Char} (post : List Char) (hd : d ≠ [])
    (hdig : ∀ c ∈ d, c.isDigit = true) :
    pctMatchAt (d ++ '%' :: post) = some (d ++ ['%'], post) := by
  obtain ⟨c, t, rfl⟩ : ∃ c t, d = c :: t := by
    rcases d with _ | ⟨c, t⟩
    · exact absurd rfl hd
    · exact ⟨c, t, rfl⟩
  have hsp := takeWhile_all_append '%' post hdig (by decide)
  rw [List.cons_append, pctMatchAt_cons,
    if_pos (hdig c (List.mem_cons_self c t))]
  rw [show ((c :: t) ++ '%' :: post : List Char) = c :: (t ++ '%' :: post) from rfl] at hsp
  rw [hsp.1, hsp.2]
  simp [pctAfterDigits]

theorem pctScan_hit {d : List Char} (post : List Char) (hd : d ≠ [])
    (hdig : ∀ c ∈ d, c.isDigit = true) :
    pctScan (d ++ '%' :: post) = (d ++ ['%']) :: pctScan post := by
  obtain ⟨c, t, rfl⟩ : ∃ c t, d = c :: t := by
    rcases d with _ | ⟨c, t⟩
    · exact absurd rfl hd
    · exact ⟨c, t, rfl⟩
  have hm := pctMatchAt_digits post hd hdig
  rw [List.cons_append] at hm
  rw [List.cons_append, pctScan]
  split
  · next tok rest heq =>
      rw [hm] at heq
      simp only [Option.some.injEq, Prod.mk.injEq] at heq
      rw [← heq.1, ← heq.2]
  · next heq =>
      rw [hm] at heq
      exact absurd heq (by simp)

theorem dropFirstPct_no_pct {d : List Char} (t : List Char)
    (h : ∀ c ∈ d, c ≠ '%') :
    dropFirstPct (d ++ '%' :: t) = d ++ t := by
  induction d with
  | nil => simp [dropFirstPct]
  | cons c r ih =>
    have hc := h c (List.mem_cons_self c r)
    simp only [List.cons_append, dropFirstPct, if_neg hc]
    show c :: dropFirstPct (r ++ '%' :: t) = c :: (r ++ t)
    rw [ih fun x hx => h x (List.mem_cons_of_mem c hx)]

theorem jsParseFloat_digits {d : List Char} (hd : d ≠ [])
    (hdig : ∀ c ∈ d, c.isDigit = true) :
    jsParseFloat d = some ((digitsVal d : ℚ)) := by
  have hsp := takeWhile_all d hdig
  rw [jsParseFloat]
  simp only [hsp.1, hsp.2]
  simp [List.isEmpty_iff, hd]

theorem digit_ne_pct {c : Char} (h : c.isDigit = true) : c ≠ '%' := by
  intro hco
  subst hco
  exact absurd h (by decide)

theorem pctValue_digits {d : List Char} (hd : d ≠ [])
    (hdig : ∀ c ∈ d, c.isDigit = true) :
    pctValue (d ++ ['%']) = JsValue.num (digitsVal d) := by
  rw [pctValue, show (d ++ ['%'] : List Char) = d ++ '%' :: [] from rfl,
    dropFirstPct_no_pct [] fun c hc => digit_ne_pct (hdig c hc),
    List.append_nil, jsParseFloat_digits hd hdig]

theorem pctScan_nil : pctScan [] = [] := by
  rw [pctScan]

theorem pctScan_skip_none {c : Char} (t : List Char)
    (h : pctMatchAt (c :: t) = none) : pctScan (c :: t) = pctScan t := by
  rw [pctScan]
  split
  · next tok rest heq =>
      rw [h] at heq
      exact absurd heq (by simp)
  · rfl

theorem pctFrac_no_pct {ds r₂ : List Char} (h : '%' ∉ r₂) :
    pctFrac ds r₂ = none := by
  unfold pctFrac
  split
  · rfl
  · split
    · next r₄ heq =>
        exfalso
        apply h
        have hmem : '%' ∈ r₂.dropWhile Char.isDigit := by
          rw [heq]
          exact List.mem_cons_self _ _
        exact (List.dropWhile_sublist Char.isDigit).subset hmem
    · rfl

theorem pctAfterDigits_no_pct {ds r₁ : List Char} (h : '%' ∉ r₁) :
    pctAfterDigits ds r₁ = none := by
  unfold pctAfterDigits
  split
  · apply pctFrac_no_pct
    intro hm
    exact h (List.mem_cons_of_mem '.' hm)
  · exact absurd (List.mem_cons_self '%' _) h
  · rfl

theorem pctMatchAt_no_pct {s : List Char} (h : '%' ∉ s) : pctMatchAt s = none := by
  rcases s with _ | ⟨c, t⟩
  · rfl
  · rw [pctMatchAt_cons]
    by_cases hc : c.isDigit = true
    · rw [if_pos hc]
      apply pctAfterDigits_no_pct
      intro hm
      exact h ((List.dropWhile_sublist Char.isDigit).subset hm)
    · rw [if_neg hc]

theorem pctScan_no_pct {s : List Char} (h : '%' ∉ s) : pctScan s = [] := by
  induction s with
  | nil => exact pctScan_nil
  | cons c t ih =>
    rw [pctScan_skip_none t (pctMatchAt_no_pct h)]
    exact ih fun hm => h (List.mem_cons_of_mem c hm)

theorem pctFrac_shape {ds r₂ tok rest : List Char}
    (h : pctFrac ds r₂ = some (tok, rest)) :
    ∃ fs, fs ≠ [] ∧ (∀ c ∈ fs, c.isDigit = true) ∧ tok = ds ++ '.' :: fs ++ ['%'] := by
  unfold pctFrac at h
  split at h
  · exact absurd h (by simp)
  · next f fs heq =>
    split at h
    · simp only [Option.some.injEq, Prod.mk.injEq] at h
      refine ⟨f :: fs, by simp, ?_, h.1.symm⟩
      intro c hc
      have hmem : c ∈ r₂.takeWhile Char.isDigit := by
        rw [heq]
        exact hc
      exact List.mem_takeWhile_imp hmem
    · exact absurd h (by simp)

theorem pctMatchAt_shape {s tok rest : List Char}
    (h : pctMatchAt s = some (tok, rest)) :
    ∃ ds, ds ≠ [] ∧ (∀ c ∈ ds, c.isDigit = true) ∧
      (tok = ds ++ ['%'] ∨
        ∃ fs, fs ≠ [] ∧ (∀ c ∈ fs, c.isDigit = true) ∧
          tok = ds ++ '.' :: fs ++ ['%']) := by
  rcases s with _ | ⟨c, t⟩
  · exact absurd h (by simp [pctMatchAt])
  · rw [pctMatchAt_cons] at h
    by_cases hc : c.isDigit = true
    · rw [if_pos hc] at h
      have hdsne : (c :: t).takeWhile Char.isDigit ≠ [] := by
        simp [List.takeWhile_cons, hc]
      have hdsdig : ∀ x ∈ (c :: t).takeWhile Char.isDigit, x.isDigit = true :=
        fun x hx => List.mem_takeWhile_imp hx
      unfold pctAfterDigits at h
      split at h
      · obtain ⟨fs, hfs1, hfs2, hfs3⟩ := pctFrac_shape h
        exact ⟨_, hdsne, hdsdig, Or.inr ⟨fs, hfs1, hfs2, hfs3⟩⟩
      · simp only [Option.some.injEq, Prod.mk.injEq] at h
        exact ⟨_, hdsne, hdsdig, Or.inl h.1.symm⟩
      · exact absurd h (by simp)
    · rw [if_neg hc] at h
      exact absurd h (by simp)

theorem pctValue_frac {ds fs : List Char} (hds : ds ≠ [])
    (hdig : ∀ c ∈ ds, c.isDigit = true) (hfs : fs ≠ [])
    (hfdig : ∀ c ∈ fs, c.isDigit = true) :
    pctValue (ds ++ '.' :: fs ++ ['%']) =
      JsValue.num ((digitsVal ds : ℚ) + (digitsVal fs : ℚ) / (10 : ℚ) ^ fs.length) := by
  have hno : ∀ c ∈ ds ++ '.' :: fs, c ≠ '%' := by
    intro c hc
    rcases List.mem_append.mp hc with hm | hm
    · exact digit_ne_pct (hdig c hm)
    · rcases List.mem_cons.mp hm with rfl | hm
      · decide
      · exact digit_ne_pct (hfdig c hm)
  have hshape : (ds ++ '.' :: fs ++ ['%'] : List Char) = (ds ++ '.' :: fs) ++ '%' :: [] := by
    simp
  rw [pctValue, hshape, dropFirstPct_no_pct [] hno, List.append_nil]
  have hsp := takeWhile_all_append '.' fs hdig (by decide)
  have hfsp := takeWhile_all fs hfdig
  rw [jsParseFloat]
  simp only [hsp.1, hsp.2, hfsp.1]
  simp [List.isEmpty_iff, hds]

theorem pctScan_tokens (n : ℕ) :
    ∀ s : List Char, s.length ≤ n → ∀ tok ∈ pctScan s,
      ∃ q, pctValue tok = JsValue.num q := by
  induction n with
  | zero =>
    intro s hs tok htok
    obtain rfl : s = [] := List.length_eq_zero.mp (Nat.le_zero.mp hs)
    rw [pctScan_nil] at htok
    exact absurd htok (by simp)
  | succ n ih =>
    intro s hs tok htok
    rcases s with _ | ⟨c, t⟩
    · rw [pctScan_nil] at htok
      exact absurd htok (by simp)
    · rw [pctScan] at htok
      split at htok
      · next tok2 rest heq =>
        rcases List.mem_cons.mp htok with rfl | h2
        · obtain ⟨ds, hds, hdig, hcase⟩ := pctMatchAt_shape heq
          rcases hcase with rfl | ⟨fs, hfs, hfdig, rfl⟩
          · exact ⟨_, pctValue_digits hds hdig⟩
          · exact ⟨_, pctValue_frac hds hdig hfs hfdig⟩
        · have hlen := pctMatchAt_shrinks heq
          refine ih rest ?_ tok h2
          simp only [List.length_cons] at hs hlen
          omega
      · refine ih t ?_ tok htok
        simp only [List.length_cons] at hs
        omega

/-- C7: for a message `pre · NN% · post` whose prefix has no digits, the
percentage extractor reports the numeral `NN` as the number
`parseFloat(NN)`; every entity it reports is a number (never a string);
and a message without a percent sign yields no percentage entities at
all, so bare numbers are ignored. -/
theorem claim_C7_percentage_extractor
    (pre d post : List Char) (msg msg₂ : String)
    (hpre : ∀ c ∈ pre, c.isDigit = false) (hd : d ≠ [])
    (hdig : ∀ c ∈ d, c.isDigit = true)
    (hmsg : msg.toList = pre ++ d ++ '%' :: post)
    (hnp : '%' ∉ msg₂.toList) :
    JsValue.num (digitsVal d) ∈ extractPercentage msg ∧
    (∀ v ∈ extractPercentage msg, ∃ q, v = JsValue.num q) ∧
    extractPercentage msg₂ = [] := by
  refine ⟨?_, ?_, ?_⟩
  · rw [extractPercentage, hmsg, List.append_assoc, pctScan_skip_all _ hpre,
      pctScan_hit post hd hdig, List.map_cons, pctValue_digits hd hdig]
    exact List.mem_cons_self _ _
  · intro v hv
    rw [extractPercentage] at hv
    obtain ⟨tok, htok, rfl⟩ := List.mem_map.mp hv
    exact pctScan_tokens msg.toList.length msg.toList le_rfl tok htok
  · rw [extractPercentage, pctScan_no_pct hnp]
    rfl

theorem claim_C7_witness :
    JsValue.num (digitsVal ['1', '5']) ∈ extractPercentage "save 15% now" ∧
    (∀ v ∈ extractPercentage "save 15% now", ∃ q, v = JsValue.num q) ∧
    extractPercentage "deal size 500" = [] :=
  claim_C7_percentage_extractor ['s', 'a', 'v', 'e', ' '] ['1', '5']
    [' ', 'n', 'o', 'w'] "save 15% now" "deal size 500"
    (by decide) (by decide) (by decide) (by decide) (by decide)

theorem curDollarSplit_not {c : Char} (t : List Char) (h : c ≠ '$') :
    curDollarSplit (c :: t) = ([], c :: t) := by
  unfold curDollarSplit
  split
  · next heq =>
      injection heq with h1 h2
      exact absurd h1 h
  · rfl

theorem curFracSplit_pct (post : List Char) :
    curFracSplit ('%' :: post) = ([], '%' :: post) := rfl

theorem curSuffixSplit_pct (post : List Char) :
    curSuffixSplit ('%' :: post) = ([], '%' :: post) := rfl

theorem curMatchAt_none {c : Char} (t : List Char)
    (h1 : isDigitOrComma c = false) (h2 : c ≠ '$') :
    curMatchAt (c :: t) = none := by
  simp only [curMatchAt, curDollarSplit_not t h2, List.takeWhile_cons, h1]
  simp

theorem curScan_nil : curScan [] = [] := by
  rw [curScan]

theorem curScan_skip_none {c : Char} (t : List Char)
    (h : curMatchAt (c :: t) = none) : curScan (c :: t) = curScan t := by
  rw [curScan]
  split
  · next tok rest heq =>
      rw [h] at heq
      exact absurd heq (by simp)
  · rfl

theorem curScan_cons_some {c : Char} {t tok rest : List Char}
    (h : curMatchAt (c :: t) = some (tok, rest)) :
    curScan (c :: t) = tok :: curScan rest := by
  rw [curScan]
  split
  · next tok2 rest2 heq =>
      rw [h] at heq
      simp only [Option.some.injEq, Prod.mk.injEq] at heq
      rw [← heq.1, ← heq.2]
  · next heq =>
      rw [h] at heq
      exact absurd heq (by simp)

theorem curScan_skip_all {pre : List Char} (rest : List Char)
    (h : ∀ c ∈ pre, isDigitOrComma c = false ∧ c ≠ '$') :
    curScan (pre ++ rest) = curScan rest := by
  induction pre with
  | nil => simp
  | cons c t ih =>
    have hc := h c (List.mem_cons_self c t)
    rw [List.cons_append, curScan_skip_none _ (curMatchAt_none _ hc.1 hc.2)]
    exact ih fun x hx => h x (List.mem_cons_of_mem c hx)

theorem curMatchAt_digits {d : List Char} (post : List Char) (hd : d ≠ [])
    (hdig : ∀ c ∈ d, c.isDigit = true) :
    curMatchAt (d ++ '%' :: post) = some (d, '%' :: post) := by
  obtain ⟨c, t, rfl⟩ : ∃ c t, d = c :: t := by
    rcases d with _ | ⟨c, t⟩
    · exact absurd rfl hd
    · exact ⟨c, t, rfl⟩
  have hc := hdig c (List.mem_cons_self c t)
  have hcd : c ≠ '$' := by
    intro hco
    subst hco
    exact absurd hc (by decide)
  have hdc : ∀ x ∈ c :: t, isDigitOrComma x = true := by
    intro x hx
    simp [isDigitOrComma, hdig x hx]
  have hsp := takeWhile_all_append '%' post hdc (by decide)
  rw [show ((c :: t) ++ '%' :: post : List Char) = c :: (t ++ '%' :: post) from rfl] at hsp
  rw [show ((c :: t) ++ '%' :: post : List Char) = c :: (t ++ '%' :: post) from rfl]
  simp only [curMatchAt, curDollarSplit_not _ hcd, hsp.1, hsp.2,
    curFracSplit_pct, curSuffixSplit_pct]
  simp

theorem curScan_hit {d : List Char} (post : List Char) (hd : d ≠ [])
    (hdig : ∀ c ∈ d, c.isDigit = true) :
    curScan (d ++ '%' :: post) = d :: curScan ('%' :: post) := by
  obtain ⟨c, t, rfl⟩ : ∃ c t, d = c :: t := by
    rcases d with _ | ⟨c, t⟩
    · exact absurd rfl hd
    · exact ⟨c, t, rfl⟩
  have hm := curMatchAt_digits post hd hdig
  rw [List.cons_append] at hm
  rw [List.cons_append, curScan]
  split
  · next tok rest heq =>
      rw [hm] at heq
      simp only [Option.some.injEq, Prod.mk.injEq] at heq
      rw [← heq.1, ← heq.2]
  · next heq =>
      rw [hm] at heq
      exact absurd heq (by simp)

theorem curValue_digits {d : List Char} (hd : d ≠ [])
    (hdig : ∀ c ∈ d, c.isDigit = true) :
    curValue d = JsValue.num (digitsVal d) := by
  have hfil : d.filter (fun c => !(c = '$' || c = ',')) = d := by
    rw [List.filter_eq_self]
    intro a ha
    have hdig' := hdig a ha
    have h1 : a ≠ '$' := by
      intro hco
      subst hco
      exact absurd hdig' (by decide)
    have h2 : a ≠ ',' := by
      intro hco
      subst hco
      exact absurd hdig' (by decide)
    simp [h1, h2]
  have hk : ∀ c ∈ d, ¬(c.toLower = 'k') := by
    intro c hc hco
    exact absurd hco ((digit_ne_km (hdig c hc)).1 ▸ id)
  have hm : ∀ c ∈ d, ¬(c.toLower = 'm') := by
    intro c hc hco
    exact absurd hco ((digit_ne_km (hdig c hc)).2 ▸ id)
  simp only [curValue, hfil, jsParseFloat_digits hd hdig]
  have hka : d.any (fun c => c.toLower = 'k') = false := by
    simp only [List.any_eq_false, decide_eq_true_eq]
    exact hk
  have hma : d.any (fun c => c.toLower = 'm') = false := by
    simp only [List.any_eq_false, decide_eq_true_eq]
    exact hm
  simp [hka, hma]

theorem extractAllEntities_pct_cons {msg : String} {x : List Char}
    {l : List (List Char)} (h : pctScan msg.toList = x :: l) :
    (extractAllEntities msg).percentage = some (List.map pctValue (x :: l)) := by
  simp only [extractAllEntities, h]

theorem extractAllEntities_cur_cons {msg : String} {x : List Char}
    {l : List (List Char)} (h : curScan msg.toList = x :: l) :
    (extractAllEntities msg).currency = some (List.map curValue (x :: l)) := by
  simp only [extractAllEntities, h]

/-- C10 (counterexample): the numeral of a percentage token is not always
reported as a currency amount.  On `"1,20%"` the percentage extractor
matches `20%` and reports `20`, while the greedy `[\d,]+` of the currency
pattern absorbs the leading `1,` as well: the single currency token is
`1,20`, whose comma-stripped value is `120`, so `20` is absent from the
currency list. -/
theorem claim_C10_counterexample :
    (extractAllEntities "1,20%").percentage = some [JsValue.num 20] ∧
    (extractAllEntities "1,20%").currency = some [JsValue.num 120] ∧
    JsValue.num 20 ∉ [JsValue.num 120] := by
  have hpct : pctScan "1,20%".toList = [['2', '0', '%']] := by
    rw [show "1,20%".toList = '1' :: ',' :: ('2' :: '0' :: '%' :: []) from rfl]
    rw [pctScan_skip_none _ (by decide), pctScan_skip_none _ (by decide)]
    rw [show ('2' :: '0' :: '%' :: [] : List Char) = ['2', '0'] ++ '%' :: [] from rfl]
    rw [pctScan_hit [] (by decide) (by decide), pctScan_nil]
  have hcur : curScan "1,20%".toList = [['1', ',', '2', '0']] := by
    rw [show "1,20%".toList = '1' :: ',' :: '2' :: '0' :: '%' :: [] from rfl]
    rw [curScan_cons_some
      (show curMatchAt ('1' :: ',' :: '2' :: '0' :: '%' :: []) =
        some (['1', ',', '2', '0'], ['%']) by decide)]
    rw [curScan_skip_none _ (by decide), curScan_nil]
  refine ⟨?_, ?_, by decide⟩
  · rw [extractAllEntities_pct_cons hpct, List.map_cons, List.map_nil]
    have hv : pctValue ['2', '0', '%'] = JsValue.num (digitsVal ['2', '0']) :=
      @pctValue_digits ['2', '0'] (by decide) (by decide)
    rw [hv, show digitsVal ['2', '0'] = 20 from rfl]
    norm_num
  · rw [extractAllEntities_cur_cons hcur, List.map_cons, List.map_nil]
    have hclean : (['1', ',', '2', '0'] : List Char).filter
        (fun c => !(c = '$' || c = ',')) = ['1', '2', '0'] := by decide
    have hjp := jsParseFloat_digits
      (show (['1', '2', '0'] : List Char) ≠ [] by decide)
      (show ∀ c ∈ (['1', '2', '0'] : List Char), c.isDigit = true by decide)
    simp only [curValue, hclean, hjp]
    rw [if_neg (by decide), if_neg (by decide),
      show digitsVal ['1', '2', '0'] = 120 from rfl]
    norm_num

/-- C10 (amended): for a message `pre · NN% · post` whose prefix contains
no digit, no dollar sign and no comma, `extractAllEntities` reports the
numeral `NN` both as a percentage entity and as a currency entity: the
currency pattern's optional `\$?` lets it match the bare digit run of the
percentage token.  A prefix ending in digits or commas can instead merge
into a single larger currency token (see the counterexample). -/
theorem claim_C10_percentage_also_currency
    (pre d post : List Char) (msg : String)
    (hpre : ∀ c ∈ pre, c.isDigit = false ∧ c ≠ '$' ∧ c ≠ ',')
    (hd : d ≠ []) (hdig : ∀ c ∈ d, c.isDigit = true)
    (hmsg : msg.toList = pre ++ d ++ '%' :: post) :
    ∃ ps cs, (extractAllEntities msg).percentage = some ps ∧
      (extractAllEntities msg).currency = some cs ∧
      JsValue.num (digitsVal d) ∈ ps ∧ JsValue.num (digitsVal d) ∈ cs := by
  have hpct : pctScan msg.toList = (d ++ ['%']) :: pctScan post := by
    rw [hmsg, List.append_assoc, pctScan_skip_all _ fun c hc => (hpre c hc).1,
      pctScan_hit post hd hdig]
  have hpre' : ∀ c ∈ pre, isDigitOrComma c = false ∧ c ≠ '$' := by
    intro c hc
    obtain ⟨h1, h2, h3⟩ := hpre c hc
    exact ⟨by simp [isDigitOrComma, h1, h3], h2⟩
  have hcur : curScan msg.toList = d :: curScan ('%' :: post) := by
    rw [hmsg, List.append_assoc, curScan_skip_all _ hpre', curScan_hit post hd hdig]
  refine ⟨_, _, extractAllEntities_pct_cons hpct, extractAllEntities_cur_cons hcur, ?_, ?_⟩
  · rw [List.map_cons, pctValue_digits hd hdig]
    exact List.mem_cons_self _ _
  · rw [List.map_cons, curValue_digits hd hdig]
    exact List.mem_cons_self _ _

theorem claim_C10_witness :
    ∃ ps cs, (extractAllEntities "need 20% off").percentage = some ps ∧
      (extractAllEntities "need 20% off").currency = some cs ∧
      JsValue.num (digitsVal ['2', '0']) ∈ ps ∧
      JsValue.num (digitsVal ['2', '0']) ∈ cs :=
  claim_C10_percentage_also_currency ['n', 'e', 'e', 'd', ' '] ['2', '0']
    [' ', 'o', 'f', 'f'] "need 20% off"
    (by decide) (by decide) (by decide) (by decide)
